import Mathlib

/-!
# Sensors multi-HAL proxy (`sensors/2.0/multihal/HalProxy.cpp`)

A shallow embedding of the proxy's handle codec, dispatch router, operation-mode
coordinator, sensor registry, output-channel writer and wake-lock reference count,
followed by the properties proved about them.

Conventions of the embedding:

* 32-bit handles (`int32_t` / `uint32_t`) are natural numbers standing for the 32-bit
  pattern; every conversion to a 32-bit type is an explicit `% 2 ^ 32`, and `size_t`
  arithmetic is an explicit `% 2 ^ 64`.
* A sub-HAL is an external object reached through the `ISensorsSubHal` interface.  It is
  modelled by its identity (the pointer stored in `mSubHalList`), the sensor list it
  reports, a response function from the calls it has already served to the result code
  of the next call, and the log of the calls the proxy has made to it.  Entries of
  `mSubHalList` with the same identity stand for one object stored several times.
-/

namespace Multihal

/-! ## Handle codec -/

/-- Modelled from the spec: the constant `kSensorHandleSubHalIndexMask` is declared in
`HalProxy.h`, which is not among the sources; the spec's codec works on "the top byte"
of a 32-bit handle, so the mask selects bits 24..31. -/
def kSensorHandleSubHalIndexMask : Nat := 0xFF000000

/-- Source `setSubHalIndex` (lines 49-51): `sensorHandle | (subHalIndex << 24)`, the shift
and the disjunction computed in `size_t`, the returned value truncated to `uint32_t`. -/
def setSubHalIndex (sensorHandle subHalIndex : Nat) : Nat :=
  (sensorHandle ||| (subHalIndex <<< 24) % 2 ^ 64) % 2 ^ 32

/-- Source `HalProxy::clearSubHalIndex` (lines 430-432):
`sensorHandle & (~kSensorHandleSubHalIndexMask)`, the complement taken in `uint32_t`. -/
def clearSubHalIndex (sensorHandle : Nat) : Nat :=
  sensorHandle &&& (2 ^ 32 - 1 - kSensorHandleSubHalIndexMask)

/-- Source `HalProxy::subHalIndexIsClear` (lines 434-436). -/
def subHalIndexIsClear (sensorHandle : Nat) : Bool :=
  (sensorHandle &&& kSensorHandleSubHalIndexMask) == 0

/-- The index expression of `HalProxy::getSubHalForSensorHandle` (line 427):
`static_cast<size_t>(sensorHandle >> 24)`. -/
def subHalIndexOf (sensorHandle : Nat) : Nat :=
  sensorHandle >>> 24

/-! ## Interface types

The HIDL types (`sensors/1.0/types.hal`) and the sub-HAL interface (`SubHal.h`) are not
among the sources; only the members the proxy touches are kept. -/

/-- Modelled from the spec: the `Result` codes of the sensors HAL (`OK` and the error
taxonomy of the spec: invalid argument is `BAD_VALUE`, invalid operation is
`INVALID_OPERATION`); the enumeration is declared in `sensors/1.0/types.hal`. -/
inductive Result where
  | OK
  | PERMISSION_DENIED
  | NO_MEMORY
  | BAD_VALUE
  | INVALID_OPERATION
  deriving DecidableEq, Repr

/-- Modelled from the spec: the operation modes, "normal" and data injection; the
enumeration is declared in `sensors/1.0/types.hal`. -/
inductive OperationMode where
  | NORMAL
  | DATA_INJECTION
  deriving DecidableEq, Repr

/-- Modelled from the spec: the administrative "additional info" sensor type; the
enumeration `SensorType` is declared in `sensors/1.0/types.hal`, sensor types are kept as
their integer codes and only equality with this one is ever tested. -/
def SensorType.ADDITIONAL_INFO : Int := 33

/-- Modelled from the spec: the wake-up capability flag of `SensorFlagBits`, declared in
`sensors/1.0/types.hal`. -/
def SensorFlagBits.WAKE_UP : Nat := 0x1

/-- Modelled from the spec: the direct-report capability bits of `SensorFlagBits`
(bits 7..9), declared in `sensors/1.0/types.hal`. -/
def SensorFlagBits.MASK_DIRECT_REPORT : Nat := 0x380

/-- Modelled from the spec: the direct-channel capability bits of `SensorFlagBits`
(bits 10..11), declared in `sensors/1.0/types.hal`. -/
def SensorFlagBits.MASK_DIRECT_CHANNEL : Nat := 0xC00

/-- Modelled from the spec: a sensor event (sensor handle, type, timestamp, payload),
declared in `sensors/1.0/types.hal`; the proxy reads `sensorType`, rewrites `sensorHandle`
and copies the rest (`u` stands for the payload union). -/
structure Event where
  timestamp : Int
  sensorHandle : Nat
  sensorType : Int
  u : List Nat
  deriving DecidableEq, Repr

/-- Modelled from the spec: a sensor descriptor (name, type, capability flags, handle),
declared in `sensors/1.0/types.hal`; the proxy rewrites `sensorHandle` and `flags` and
copies the rest (`other` stands for the descriptive fields the proxy never reads). -/
structure SensorInfo where
  sensorHandle : Nat
  name : String
  type : Int
  flags : Nat
  other : List Nat
  deriving DecidableEq, Repr

/-- Modelled from the spec: the calls of the backend-facing surface (`ISensorsSubHal`,
declared in `SubHal.h`) that the proxy makes after construction, with their arguments. -/
inductive SubHalCall where
  | setOperationMode (mode : OperationMode)
  | activate (sensorHandle : Nat) (enabled : Bool)
  | batch (sensorHandle : Nat) (samplingPeriodNs maxReportLatencyNs : Int)
  | flush (sensorHandle : Nat)
  | injectSensorData (event : Event)
  | registerDirectChannel (mem : Nat)
  | unregisterDirectChannel (channelHandle : Int)
  | configDirectReport (sensorHandle : Nat) (channelHandle : Int) (rate : Nat)
  deriving DecidableEq, Repr

/-- Modelled from the spec: a backend behind the `ISensorsSubHal` interface (declared in
`SubHal.h`; implementations are external).  `addr` is the object's identity (the pointer
kept in `mSubHalList`), `sensorsList` the list its `getSensorsList` reports, `respond` its
behaviour (the result code of a call, given the calls served so far), `calls` the log of
the calls served so far with their results, and `respondValue` the 32-bit value a
direct-channel call hands to its callback next to the result code (the channel handle or
the report token). -/
structure ISensorsSubHal where
  addr : Nat
  sensorsList : List SensorInfo
  respond : List (SubHalCall × Result) → SubHalCall → Result
  calls : List (SubHalCall × Result)
  respondValue : List (SubHalCall × Result) → SubHalCall → Int := fun _ _ => 0

/-- One call through the interface: the sub-HAL answers according to its behaviour and the
call is appended to its log. -/
def ISensorsSubHal.call (subHal : ISensorsSubHal) (c : SubHalCall) :
    Result × ISensorsSubHal :=
  (subHal.respond subHal.calls c,
    { subHal with calls := subHal.calls ++ [(c, subHal.respond subHal.calls c)] })

/-- The operation mode a sub-HAL is in, read off its log: the mode of the last
`setOperationMode` call it answered with `OK` (a refused call leaves the mode as it was);
`none` while no such call has been served. -/
def ISensorsSubHal.modeOf (subHal : ISensorsSubHal) : Option OperationMode :=
  subHal.calls.foldl
    (fun m e =>
      match e with
      | (SubHalCall.setOperationMode mode, Result.OK) => some mode
      | _ => m)
    none

/-! ## Proxy state (the members read and written outside the writer and wake-lock locks) -/

/-- The members of `HalProxy` used by the router, the operation-mode coordinator and the
registry construction (their declarations are in `HalProxy.h`, not among the sources).
`mSensors` is the map from global handle to descriptor, kept as an association list with
unique keys (only lookup and membership are observed); `mDirectChannelSubHal` is a pointer,
`none` standing for `nullptr`. -/
structure HalProxy where
  mSubHalList : List ISensorsSubHal
  mCurrentOperationMode : OperationMode
  mSensors : List (Nat × SensorInfo)
  mDirectChannelSubHal : Option Nat

/-- The state the constructor `HalProxy(subHalList)` starts `initializeSensorList` from:
an empty registry, no designated direct-channel sub-HAL, operation mode `NORMAL`. -/
def HalProxy.create (subHalList : List ISensorsSubHal) : HalProxy :=
  { mSubHalList := subHalList
    mCurrentOperationMode := OperationMode.NORMAL
    mSensors := []
    mDirectChannelSubHal := none }

/-! ## Operation-mode coordinator -/

/-- The object `subHal` as a call has just left it, seen through the pointers kept in
`mSubHalList`: every entry that holds the pointer of this object shows the object after the
call.  Entries with the same `addr` stand for one object stored several times. -/
def storeSubHal (subHals : List ISensorsSubHal) (subHal : ISensorsSubHal) :
    List ISensorsSubHal :=
  subHals.map (fun b => if b.addr == subHal.addr then subHal else b)

/-- What a loop of `HalProxy::setOperationMode` leaves: the local `result`, the local
`subHalIndex`, the sub-HALs after the calls, and the calls made, in program order, each
with the index called and the answer received. -/
structure ModeLoop where
  result : Result
  subHalIndex : Nat
  subHals : List ISensorsSubHal
  calls : List (Nat × SubHalCall × Result)

/-- The first loop of `HalProxy::setOperationMode` (lines 87-94) from index `subHalIndex`
on, with at most `remaining` iterations (the caller passes the size of the list): each
iteration calls `setOperationMode(mode)` through the pointer at `subHalIndex` and the loop
breaks at the first answer that is not `OK`. -/
def setOperationModeApply (mode : OperationMode) :
    Nat → Nat → List ISensorsSubHal → ModeLoop
  | 0, subHalIndex, subHals =>
    { result := Result.OK, subHalIndex := subHalIndex, subHals := subHals, calls := [] }
  | remaining + 1, subHalIndex, subHals =>
    match subHals[subHalIndex]? with
    | none =>
      { result := Result.OK, subHalIndex := subHalIndex, subHals := subHals, calls := [] }
    | some subHal =>
      if (subHal.call (SubHalCall.setOperationMode mode)).1 != Result.OK then
        { result := (subHal.call (SubHalCall.setOperationMode mode)).1
          subHalIndex := subHalIndex
          subHals := storeSubHal subHals (subHal.call (SubHalCall.setOperationMode mode)).2
          calls :=
            [(subHalIndex, SubHalCall.setOperationMode mode,
              (subHal.call (SubHalCall.setOperationMode mode)).1)] }
      else
        { setOperationModeApply mode remaining (subHalIndex + 1)
            (storeSubHal subHals (subHal.call (SubHalCall.setOperationMode mode)).2) with
          calls :=
            (subHalIndex, SubHalCall.setOperationMode mode,
                (subHal.call (SubHalCall.setOperationMode mode)).1) ::
              (setOperationModeApply mode remaining (subHalIndex + 1)
                (storeSubHal subHals
                  (subHal.call (SubHalCall.setOperationMode mode)).2)).calls }

/-- The second loop of `HalProxy::setOperationMode` (lines 97-100) from index `i` on, with
`count` iterations left (the caller passes `subHalIndex` and starts at 0): each iteration
calls `setOperationMode(current)` through the pointer at `i` and discards the answer.
Returned are the sub-HALs after the calls and the calls made, with index and answer. -/
def setOperationModeReset (current : OperationMode) :
    Nat → Nat → List ISensorsSubHal → List ISensorsSubHal × List (Nat × SubHalCall × Result)
  | 0, _, subHals => (subHals, [])
  | count + 1, i, subHals =>
    match subHals[i]? with
    | none => (subHals, [])
    | some subHal =>
      ((setOperationModeReset current count (i + 1)
          (storeSubHal subHals (subHal.call (SubHalCall.setOperationMode current)).2)).1,
        (i, SubHalCall.setOperationMode current,
            (subHal.call (SubHalCall.setOperationMode current)).1) ::
          (setOperationModeReset current count (i + 1)
            (storeSubHal subHals (subHal.call (SubHalCall.setOperationMode current)).2)).2)

/-- Source `HalProxy::setOperationMode` (lines 84-105). -/
def setOperationMode (p : HalProxy) (mode : OperationMode) : Result × HalProxy :=
  if (setOperationModeApply mode p.mSubHalList.length 0 p.mSubHalList).result
      != Result.OK then
    ((setOperationModeApply mode p.mSubHalList.length 0 p.mSubHalList).result,
      { p with
        mSubHalList :=
          (setOperationModeReset p.mCurrentOperationMode
            (setOperationModeApply mode p.mSubHalList.length 0 p.mSubHalList).subHalIndex 0
            (setOperationModeApply mode p.mSubHalList.length 0 p.mSubHalList).subHals).1 })
  else
    ((setOperationModeApply mode p.mSubHalList.length 0 p.mSubHalList).result,
      { p with
        mSubHalList :=
          (setOperationModeApply mode p.mSubHalList.length 0 p.mSubHalList).subHals
        mCurrentOperationMode := mode })

/-- The calls the first loop of one run of `HalProxy::setOperationMode` makes, in program
order, each with the index called and the answer received. -/
def setOperationModeApplyCalls (p : HalProxy) (mode : OperationMode) :
    List (Nat × SubHalCall × Result) :=
  (setOperationModeApply mode p.mSubHalList.length 0 p.mSubHalList).calls

/-- The calls the rollback loop of one run of `HalProxy::setOperationMode` makes, in
program order, each with the index called and the answer received (none when the first
loop ended with `OK`). -/
def setOperationModeResetCalls (p : HalProxy) (mode : OperationMode) :
    List (Nat × SubHalCall × Result) :=
  if (setOperationModeApply mode p.mSubHalList.length 0 p.mSubHalList).result
      != Result.OK then
    (setOperationModeReset p.mCurrentOperationMode
      (setOperationModeApply mode p.mSubHalList.length 0 p.mSubHalList).subHalIndex 0
      (setOperationModeApply mode p.mSubHalList.length 0 p.mSubHalList).subHals).2
  else
    []

/-- The calls one run of `HalProxy::setOperationMode` (lines 84-105) makes on the sub-HALs,
in program order. -/
def setOperationModeCalls (p : HalProxy) (mode : OperationMode) :
    List (Nat × SubHalCall × Result) :=
  setOperationModeApplyCalls p mode ++ setOperationModeResetCalls p mode

/-- The answers the sub-HALs give when `setOperationMode(mode)` is called through the
pointers at the indices `subHalIndex`, `subHalIndex + 1`, ... in turn, each call made
whatever the earlier answers were (at most `remaining` of them).  The sub-HAL at index `k`
is the first to fail when the first `k` answers are `OK` and the next one is not.  For
sub-HALs with pairwise distinct identities these are the answers each one gives from its
own log. -/
def modeAnswers (mode : OperationMode) : Nat → Nat → List ISensorsSubHal → List Result
  | 0, _, _ => []
  | remaining + 1, subHalIndex, subHals =>
    match subHals[subHalIndex]? with
    | none => []
    | some subHal =>
      (subHal.call (SubHalCall.setOperationMode mode)).1 ::
        modeAnswers mode remaining (subHalIndex + 1)
          (storeSubHal subHals (subHal.call (SubHalCall.setOperationMode mode)).2)

/-! ## Dispatch router -/

/-- Source `HalProxy::getSubHalForSensorHandle` (lines 426-428); `none` stands for an
index outside `mSubHalList`, where the C++ subscript has no defined behaviour. -/
def getSubHalForSensorHandle (p : HalProxy) (sensorHandle : Nat) : Option ISensorsSubHal :=
  p.mSubHalList[subHalIndexOf sensorHandle]?

/-- A call `getSubHalForSensorHandle(sensorHandle)->c`: the sub-HAL found for the handle
serves the call `c`, its entry in `mSubHalList` carries the extended log afterwards. -/
def callSubHalForSensorHandle (p : HalProxy) (sensorHandle : Nat) (c : SubHalCall) :
    Option (Result × HalProxy) :=
  match getSubHalForSensorHandle p sensorHandle with
  | none => none
  | some subHal =>
    some ((subHal.call c).1,
      { p with
        mSubHalList := p.mSubHalList.set (subHalIndexOf sensorHandle) (subHal.call c).2 })

/-- Source `HalProxy::activate` (lines 107-110). -/
def activate (p : HalProxy) (sensorHandle : Nat) (enabled : Bool) :
    Option (Result × HalProxy) :=
  callSubHalForSensorHandle p sensorHandle
    (SubHalCall.activate (clearSubHalIndex sensorHandle) enabled)

/-- Source `HalProxy::batch` (lines 159-163). -/
def batch (p : HalProxy) (sensorHandle : Nat) (samplingPeriodNs maxReportLatencyNs : Int) :
    Option (Result × HalProxy) :=
  callSubHalForSensorHandle p sensorHandle
    (SubHalCall.batch (clearSubHalIndex sensorHandle) samplingPeriodNs maxReportLatencyNs)

/-- Source `HalProxy::flush` (lines 165-167). -/
def flush (p : HalProxy) (sensorHandle : Nat) : Option (Result × HalProxy) :=
  callSubHalForSensorHandle p sensorHandle
    (SubHalCall.flush (clearSubHalIndex sensorHandle))

/-- The mode gate of `HalProxy::injectSensorData` (lines 170-176): the value of `result`
before the forwarding branch. -/
def injectSensorDataGate (p : HalProxy) (event : Event) : Result :=
  if p.mCurrentOperationMode == OperationMode.NORMAL &&
      event.sensorType != SensorType.ADDITIONAL_INFO then
    Result.BAD_VALUE
  else
    Result.OK

/-- Source `HalProxy::injectSensorData` (lines 169-183). -/
def injectSensorData (p : HalProxy) (event : Event) : Option (Result × HalProxy) :=
  if injectSensorDataGate p event == Result.OK then
    callSubHalForSensorHandle p event.sensorHandle
      (SubHalCall.injectSensorData
        { event with sensorHandle := clearSubHalIndex event.sensorHandle })
  else
    some (injectSensorDataGate p event, p)

/-- The proxy state in which the sub-HAL `subHal`, stored at index `i`, has served exactly
one more call, `c`; every other sub-HAL and every other member is unchanged. -/
def HalProxy.served (p : HalProxy) (i : Nat) (subHal : ISensorsSubHal) (c : SubHalCall) :
    HalProxy :=
  { p with
    mSubHalList := p.mSubHalList.set i
      { subHal with calls := subHal.calls ++ [(c, subHal.respond subHal.calls c)] } }

/-! ## Direct-channel calls -/

/-- A call `mDirectChannelSubHal->c` through the pointer `a`: the sub-HAL of the list whose
identity is `a` serves the call; the result code and the value handed to the callback are
returned with the list after the call.  `none` stands for a pointer to no sub-HAL of the
list. -/
def callDirectChannelSubHal (a : Nat) (c : SubHalCall) :
    List ISensorsSubHal → Option ((Result × Int) × List ISensorsSubHal)
  | [] => none
  | subHal :: rest =>
    if subHal.addr == a then
      some (((subHal.call c).1, subHal.respondValue subHal.calls c), (subHal.call c).2 :: rest)
    else
      (callDirectChannelSubHal a c rest).map (fun r => (r.1, subHal :: r.2))

/-- Source `HalProxy::registerDirectChannel` (lines 185-193): the pair is what the callback
`_hidl_cb` receives. -/
def registerDirectChannel (p : HalProxy) (mem : Nat) : Option ((Result × Int) × HalProxy) :=
  match p.mDirectChannelSubHal with
  | none => some ((Result.INVALID_OPERATION, -1), p)
  | some a =>
    (callDirectChannelSubHal a (SubHalCall.registerDirectChannel mem) p.mSubHalList).map
      (fun r => (r.1, { p with mSubHalList := r.2 }))

/-- Source `HalProxy::unregisterDirectChannel` (lines 195-203). -/
def unregisterDirectChannel (p : HalProxy) (channelHandle : Int) : Option (Result × HalProxy) :=
  match p.mDirectChannelSubHal with
  | none => some (Result.INVALID_OPERATION, p)
  | some a =>
    (callDirectChannelSubHal a (SubHalCall.unregisterDirectChannel channelHandle)
        p.mSubHalList).map
      (fun r => (r.1.1, { p with mSubHalList := r.2 }))

/-- Source `HalProxy::configDirectReport` (lines 205-214): the pair is what the callback
`_hidl_cb` receives. -/
def configDirectReport (p : HalProxy) (sensorHandle : Nat) (channelHandle : Int) (rate : Nat) :
    Option ((Result × Int) × HalProxy) :=
  match p.mDirectChannelSubHal with
  | none => some ((Result.INVALID_OPERATION, -1), p)
  | some a =>
    (callDirectChannelSubHal a
        (SubHalCall.configDirectReport (clearSubHalIndex sensorHandle) channelHandle rate)
        p.mSubHalList).map
      (fun r => (r.1, { p with mSubHalList := r.2 }))

/-! ## Sensor registry -/

/-- The assignment `mSensors[key] = value` of `std::map`: the entry for `key` is created or
replaced, every other entry is kept. -/
def mapAssign (m : List (Nat × SensorInfo)) (key : Nat) (value : SensorInfo) :
    List (Nat × SensorInfo) :=
  (key, value) :: m.filter (fun e => e.1 != key)

/-- Source `HalProxy::setDirectChannelFlags` (lines 412-424): returns the descriptor after
the call and the proxy with `mDirectChannelSubHal` possibly set.  Pointers are compared by
the sub-HAL's identity; the complement of the two masks is taken in 32 bits. -/
def setDirectChannelFlags (p : HalProxy) (sensorInfo : SensorInfo) (subHal : ISensorsSubHal) :
    SensorInfo × HalProxy :=
  if p.mDirectChannelSubHal == none &&
      (sensorInfo.flags &&&
        (SensorFlagBits.MASK_DIRECT_REPORT ||| SensorFlagBits.MASK_DIRECT_CHANNEL)) != 0 then
    (sensorInfo, { p with mDirectChannelSubHal := some subHal.addr })
  else if p.mDirectChannelSubHal != none && some subHal.addr != p.mDirectChannelSubHal then
    ({ sensorInfo with
        flags := sensorInfo.flags &&&
          (2 ^ 32 - 1 -
            (SensorFlagBits.MASK_DIRECT_REPORT ||| SensorFlagBits.MASK_DIRECT_CHANNEL)) }, p)
  else
    (sensorInfo, p)

/-- The body of the callback loop of `HalProxy::initializeSensorList` (lines 308-317) for
one reported sensor. -/
def loadSensor (subHalIndex : Nat) (subHal : ISensorsSubHal) (p : HalProxy)
    (sensor : SensorInfo) : HalProxy :=
  if !subHalIndexIsClear sensor.sensorHandle then
    p
  else
    let r := setDirectChannelFlags p
      { sensor with
        sensorHandle := (sensor.sensorHandle ||| (subHalIndex <<< 24) % 2 ^ 64) % 2 ^ 32 }
      subHal
    { r.2 with mSensors := mapAssign r.2.mSensors r.1.sensorHandle r.1 }

/-- The outer loop of `HalProxy::initializeSensorList` (lines 305-322) from index
`subHalIndex` on, over the sub-HALs not yet visited. -/
def initializeSensorListFrom : Nat → List ISensorsSubHal → HalProxy → HalProxy
  | _, [], p => p
  | subHalIndex, subHal :: rest, p =>
    initializeSensorListFrom (subHalIndex + 1) rest
      (subHal.sensorsList.foldl (loadSensor subHalIndex subHal) p)

/-- Source `HalProxy::initializeSensorList` (lines 304-323). -/
def initializeSensorList (p : HalProxy) : HalProxy :=
  initializeSensorListFrom 0 p.mSubHalList p

/-- The registry entry with key `g` and descriptor `s` stems from the sensor `s0` reported
by `subHal`, the sub-HAL at index `i`: the reported handle has a clear top byte, the key is
its encoding with `i`, and the descriptor is the reported one with the handle replaced by
the key (the flags are related separately). -/
def StemsFrom (subHals : List ISensorsSubHal) (g : Nat) (s : SensorInfo) (i : Nat)
    (subHal : ISensorsSubHal) (s0 : SensorInfo) : Prop :=
  subHals[i]? = some subHal ∧ s0 ∈ subHal.sensorsList ∧
    subHalIndexIsClear s0.sensorHandle = true ∧ g = setSubHalIndex s0.sensorHandle i ∧
    s.sensorHandle = g ∧ s.name = s0.name ∧ s.type = s0.type ∧ s.other = s0.other

/-- The two direct-channel capability fields are cleared in `flags` and every other bit is
the one of `flags0`. -/
def DirectFlagsCleared (flags flags0 : Nat) : Prop :=
  flags &&& SensorFlagBits.MASK_DIRECT_REPORT = 0 ∧
    flags &&& SensorFlagBits.MASK_DIRECT_CHANNEL = 0 ∧
    ∀ j : Nat,
      (SensorFlagBits.MASK_DIRECT_REPORT ||| SensorFlagBits.MASK_DIRECT_CHANNEL).testBit j =
          false →
        flags.testBit j = flags0.testBit j

/-- The invariant of the registry construction over the sub-HAL list `subHals`: every entry
stems from a reported sensor; an entry of the designated sub-HAL carries the reported flags;
an entry of any other sub-HAL carries the reported flags masked, or unmasked when they had
no direct-channel bit; and while nothing is designated no entry has a direct-channel bit. -/
def RegistryInv (subHals : List ISensorsSubHal) (p : HalProxy) : Prop :=
  ∀ g s, (g, s) ∈ p.mSensors →
    ∃ i subHal s0, StemsFrom subHals g s i subHal s0 ∧
      (p.mDirectChannelSubHal = some subHal.addr → s.flags = s0.flags) ∧
      (p.mDirectChannelSubHal ≠ some subHal.addr →
        s.flags = s0.flags &&&
            (2 ^ 32 - 1 -
              (SensorFlagBits.MASK_DIRECT_REPORT ||| SensorFlagBits.MASK_DIRECT_CHANNEL)) ∨
          (s.flags = s0.flags ∧
            s0.flags &&&
              (SensorFlagBits.MASK_DIRECT_REPORT ||| SensorFlagBits.MASK_DIRECT_CHANNEL) = 0)) ∧
      (p.mDirectChannelSubHal = none →
        s.flags = s0.flags ∧
          s0.flags &&&
            (SensorFlagBits.MASK_DIRECT_REPORT ||| SensorFlagBits.MASK_DIRECT_CHANNEL) = 0)

/-! ## Event relabelling (`HalProxyCallback`) -/

/-- Modelled from the spec: `HalProxy::getSensorInfo` is defined in `HalProxy.h`, which is
not among the sources; the spec's registry offers lookup by handle of the stored
descriptor, and a handle without an entry has no stored flag (a descriptor with flags 0
stands for it). -/
def getSensorInfo (p : HalProxy) (sensorHandle : Nat) : SensorInfo :=
  match p.mSensors.find? (fun e => e.1 == sensorHandle) with
  | some e => e.2
  | none => { sensorHandle := 0, name := "", type := 0, flags := 0, other := [] }

/-- The body of the loop of `HalProxyCallback::processEvents` (lines 466-473) for one
event: the accumulator holds `eventsOut` and `*numWakeupEvents`. -/
def processEvent (p : HalProxy) (mSubHalIndex : Nat) (acc : List Event × Nat) (event : Event) :
    List Event × Nat :=
  (acc.1 ++ [{ event with sensorHandle := setSubHalIndex event.sensorHandle mSubHalIndex }],
    if ((getSensorInfo p (setSubHalIndex event.sensorHandle mSubHalIndex)).flags &&&
        SensorFlagBits.WAKE_UP) != 0 then
      acc.2 + 1
    else
      acc.2)

/-- Source `HalProxyCallback::processEvents` (lines 462-475): the returned vector and the
value left in `*numWakeupEvents`. -/
def processEvents (p : HalProxy) (mSubHalIndex : Nat) (events : List Event) : List Event × Nat :=
  events.foldl (processEvent p mSubHalIndex) ([], 0)

/-! ## Dynamic sensors (the member guarded by `mDynamicSensorsMutex`) -/

/-- The test `mDynamicSensors.find(key) != mDynamicSensors.end()` of `std::map`. -/
def mapContains (m : List (Nat × SensorInfo)) (key : Nat) : Bool :=
  m.any (fun e => e.1 == key)

/-- The call `mDynamicSensors.erase(key)` of `std::map`. -/
def mapErase (m : List (Nat × SensorInfo)) (key : Nat) : List (Nat × SensorInfo) :=
  m.filter (fun e => e.1 != key)

/-- The descriptor a map holds for a key, if any. -/
def mapFind (m : List (Nat × SensorInfo)) (key : Nat) : Option SensorInfo :=
  (m.find? (fun e => e.1 == key)).map Prod.snd

/-- The body of the loop of `HalProxy::onDynamicSensorsConnected` (lines 226-235) for one
sensor: the state holds `mDynamicSensors` and the local vector `sensors`. -/
def connectSensor (subHalIndex : Nat) (st : List (Nat × SensorInfo) × List SensorInfo)
    (sensor : SensorInfo) : List (Nat × SensorInfo) × List SensorInfo :=
  if !subHalIndexIsClear sensor.sensorHandle then
    st
  else
    (mapAssign st.1 (setSubHalIndex sensor.sensorHandle subHalIndex)
        { sensor with sensorHandle := setSubHalIndex sensor.sensorHandle subHalIndex },
      st.2 ++ [{ sensor with sensorHandle := setSubHalIndex sensor.sensorHandle subHalIndex }])

/-- Source `HalProxy::onDynamicSensorsConnected` (lines 221-239): `mDynamicSensors` after
the call and the vector handed to the framework callback; `subHalIndex` is the index as
`setSubHalIndex` receives it. -/
def onDynamicSensorsConnected (mDynamicSensors : List (Nat × SensorInfo))
    (dynamicSensorsAdded : List SensorInfo) (subHalIndex : Nat) :
    List (Nat × SensorInfo) × List SensorInfo :=
  dynamicSensorsAdded.foldl (connectSensor subHalIndex) (mDynamicSensors, [])

/-- The body of the loop of `HalProxy::onDynamicSensorsDisconnected` (lines 247-257) for
one handle: the state holds `mDynamicSensors` and the local vector `sensorHandles`. -/
def disconnectSensor (subHalIndex : Nat) (st : List (Nat × SensorInfo) × List Nat)
    (sensorHandle : Nat) : List (Nat × SensorInfo) × List Nat :=
  if !subHalIndexIsClear sensorHandle then
    st
  else if mapContains st.1 (setSubHalIndex sensorHandle subHalIndex) then
    (mapErase st.1 (setSubHalIndex sensorHandle subHalIndex),
      st.2 ++ [setSubHalIndex sensorHandle subHalIndex])
  else
    st

/-- Source `HalProxy::onDynamicSensorsDisconnected` (lines 241-261): `mDynamicSensors` after
the call and the vector handed to the framework callback; `subHalIndex` is the index as
`setSubHalIndex` receives it. -/
def onDynamicSensorsDisconnected (mDynamicSensors : List (Nat × SensorInfo))
    (dynamicSensorHandlesRemoved : List Nat) (subHalIndex : Nat) :
    List (Nat × SensorInfo) × List Nat :=
  dynamicSensorHandlesRemoved.foldl (disconnectSensor subHalIndex) (mDynamicSensors, [])

/-- What the description of `onDynamicSensorsDisconnected` forwards for the input at
position `k`: the encoded handle, when the input handle has a clear top byte and its
encoding is a key of the registry as the inputs before position `k` have left it. -/
def disconnectForwardedAt (mDynamicSensors : List (Nat × SensorInfo))
    (dynamicSensorHandlesRemoved : List Nat) (subHalIndex : Nat) (k : Nat) : Option Nat :=
  match dynamicSensorHandlesRemoved[k]? with
  | none => none
  | some sensorHandle =>
    if subHalIndexIsClear sensorHandle &&
        mapContains
          (onDynamicSensorsDisconnected mDynamicSensors (dynamicSensorHandlesRemoved.take k)
            subHalIndex).1
          (setSubHalIndex sensorHandle subHalIndex) then
      some (setSubHalIndex sensorHandle subHalIndex)
    else
      none

/-- The sub-HAL reports a sensor that the registry construction accepts (clear top byte)
and that has a direct-channel capability bit. -/
def reportsDirectChannel (subHal : ISensorsSubHal) : Bool :=
  subHal.sensorsList.any (fun s =>
    subHalIndexIsClear s.sensorHandle &&
      (s.flags &&&
        (SensorFlagBits.MASK_DIRECT_REPORT ||| SensorFlagBits.MASK_DIRECT_CHANNEL)) != 0)

/-! ## Output-channel writer (the members guarded by `mEventQueueWriteMutex`) -/

/-- An operation the proxy performs on the event queue `mEventQueue` or on its flag
`mEventQueueFlag`: a non-blocking `write` or a `writeBlocking` of some events with the
result the queue returned, or a `wake` of the reader. -/
inductive QueueOp where
  | write (events : List Event) (ok : Bool)
  | writeBlocking (events : List Event) (ok : Bool)
  | wake
  deriving DecidableEq, Repr

/-- The backlog `mPendingWriteEventsQueue` (head first) together with the log of the
operations performed on the event queue so far.  The queue itself is an external
collaborator: the room it reports and the result of each write are inputs of the steps. -/
structure Writer where
  mPendingWriteEventsQueue : List (List Event)
  queueOps : List QueueOp
  deriving DecidableEq, Repr

/-- The events handed to the channel by a log of queue operations, in order: those of every
successful `write` and those of every `writeBlocking`, written or attempted and dropped. -/
def handedEvents : List QueueOp → List Event
  | [] => []
  | QueueOp.write events true :: ops => events ++ handedEvents ops
  | QueueOp.writeBlocking events _ :: ops => events ++ handedEvents ops
  | _ :: ops => handedEvents ops

/-- The events written to the channel by a log of queue operations, in order: those of
every `write` and `writeBlocking` that returned true. -/
def writtenEvents : List QueueOp → List Event
  | [] => []
  | QueueOp.write events true :: ops => events ++ writtenEvents ops
  | QueueOp.writeBlocking events true :: ops => events ++ writtenEvents ops
  | _ :: ops => writtenEvents ops

/-- The first part of `HalProxy::postEventsToMessageQueue` (lines 370-383): the value of
`numToWrite` after the immediate write attempt and the queue operations performed. -/
def postEventsWrite (w : Writer) (events : List Event) (availableToWrite : Nat)
    (writeOk : Bool) : Nat × List QueueOp :=
  if w.mPendingWriteEventsQueue.isEmpty then
    if min events.length availableToWrite > 0 then
      if writeOk then
        (min events.length availableToWrite,
          [QueueOp.write (events.take (min events.length availableToWrite)) true,
            QueueOp.wake])
      else
        (0, [QueueOp.write (events.take (min events.length availableToWrite)) false])
    else
      (min events.length availableToWrite, [])
  else
    (0, [])

/-- Source `HalProxy::postEventsToMessageQueue` (lines 369-391), one call under the lock;
`availableToWrite` and `writeOk` are what the event queue answers. -/
def postEventsToMessageQueue (w : Writer) (events : List Event) (availableToWrite : Nat)
    (writeOk : Bool) : Writer :=
  if (postEventsWrite w events availableToWrite writeOk).1 < events.length then
    { mPendingWriteEventsQueue :=
        w.mPendingWriteEventsQueue ++
          [events.drop (postEventsWrite w events availableToWrite writeOk).1]
      queueOps := w.queueOps ++ (postEventsWrite w events availableToWrite writeOk).2 }
  else
    { w with queueOps := w.queueOps ++ (postEventsWrite w events availableToWrite writeOk).2 }

/-- The locked opening of one iteration of `HalProxy::handlePendingWrites` (lines 340-344):
the locals `numToWrite` and `eventQueueSize`, or `none` when the backlog is empty and the
thread keeps waiting. -/
def pendingWriteBegin (w : Writer) (quantumCount : Nat) : Option (Nat × Nat) :=
  match w.mPendingWriteEventsQueue with
  | [] => none
  | pendingWriteEvents :: _ => some (min pendingWriteEvents.length quantumCount, quantumCount)

/-- The rest of one iteration of `HalProxy::handlePendingWrites` (lines 347-364): the
blocking write of the first `numToWrite` events of the head batch with result `writeOk`,
then, under the lock again, the removal of the first `eventQueueSize` events of the head
batch or of the whole head batch. -/
def pendingWriteEnd (w : Writer) (numToWrite eventQueueSize : Nat) (writeOk : Bool) : Writer :=
  match w.mPendingWriteEventsQueue with
  | [] => w
  | pendingWriteEvents :: rest =>
    { mPendingWriteEventsQueue :=
        if pendingWriteEvents.length > eventQueueSize then
          pendingWriteEvents.drop eventQueueSize :: rest
        else
          rest
      queueOps :=
        w.queueOps ++
          (if writeOk then
            [QueueOp.writeBlocking (pendingWriteEvents.take numToWrite) true, QueueOp.wake]
          else
            [QueueOp.writeBlocking (pendingWriteEvents.take numToWrite) false]) }

/-- One whole iteration of the loop of `HalProxy::handlePendingWrites` (lines 337-366) with
no other thread taking the lock in between; `quantumCount` is the capacity the event queue
reports and `writeOk` the result of the blocking write. -/
def handlePendingWritesIteration (w : Writer) (quantumCount : Nat) (writeOk : Bool) : Writer :=
  match pendingWriteBegin w quantumCount with
  | none => w
  | some (numToWrite, eventQueueSize) => pendingWriteEnd w numToWrite eventQueueSize writeOk

/-- A step of the writer as the lock orders them: a call of `postEventsToMessageQueue`, a
whole drain iteration, or the two halves of a drain iteration (up to the unlock, and from
the blocking write on), between which other threads may take the lock. -/
inductive WriterStep where
  | post (events : List Event) (availableToWrite : Nat) (writeOk : Bool)
  | iteration (quantumCount : Nat) (writeOk : Bool)
  | drainBegin (quantumCount : Nat)
  | drainEnd (writeOk : Bool)
  deriving DecidableEq, Repr

/-- The writer and the drain thread: `inFlight` holds the locals `numToWrite` and
`eventQueueSize` while the drain thread is between its unlock and its next lock. -/
structure WriterSystem where
  writer : Writer
  inFlight : Option (Nat × Nat)
  deriving DecidableEq, Repr

/-- The start of the writer: empty backlog, nothing done on the queue, drain thread
waiting. -/
def WriterSystem.start : WriterSystem :=
  { writer := { mPendingWriteEventsQueue := [], queueOps := [] }, inFlight := none }

/-- The effect of one step; a step the drain thread cannot take in its present phase
leaves the system as it is. -/
def WriterSystem.step (s : WriterSystem) : WriterStep → WriterSystem
  | WriterStep.post events availableToWrite writeOk =>
    { s with writer := postEventsToMessageQueue s.writer events availableToWrite writeOk }
  | WriterStep.iteration quantumCount writeOk =>
    match s.inFlight with
    | some _ => s
    | none => { s with writer := handlePendingWritesIteration s.writer quantumCount writeOk }
  | WriterStep.drainBegin quantumCount =>
    match s.inFlight with
    | some _ => s
    | none => { s with inFlight := pendingWriteBegin s.writer quantumCount }
  | WriterStep.drainEnd writeOk =>
    match s.inFlight with
    | none => s
    | some (numToWrite, eventQueueSize) =>
      { writer := pendingWriteEnd s.writer numToWrite eventQueueSize writeOk
        inFlight := none }

/-- The batch a step submits, if it is a call of `postEventsToMessageQueue`. -/
def WriterStep.submitted : WriterStep → List (List Event)
  | WriterStep.post events _ _ => [events]
  | _ => []

/-- The batches submitted along a sequence of steps, in the order of the steps. -/
def submittedBatches (steps : List WriterStep) : List (List Event) :=
  (steps.map WriterStep.submitted).flatten

/-- The ordering invariant of the writer relative to the batches `sub` submitted so far:
the events handed to the channel followed by the flattened backlog are the flattened
submissions, and while a drain iteration is in flight the backlog still has the head batch
its `numToWrite` was computed from. -/
def WriterInv (s : WriterSystem) (sub : List (List Event)) : Prop :=
  handedEvents s.writer.queueOps ++ s.writer.mPendingWriteEventsQueue.flatten = sub.flatten ∧
    ∀ numToWrite eventQueueSize, s.inFlight = some (numToWrite, eventQueueSize) →
      ∃ pendingWriteEvents rest,
        s.writer.mPendingWriteEventsQueue = pendingWriteEvents :: rest ∧
          numToWrite = min pendingWriteEvents.length eventQueueSize

/-! ## Wake-lock reference count (the members guarded by `mWakelockRefCountMutex`) -/

/-- A call of the power library made by the proxy. -/
inductive PowerCall where
  | acquire_wake_lock
  | release_wake_lock
  deriving DecidableEq, Repr

/-- The two operations on the reference count. -/
inductive WakelockOp where
  | increment
  | decrement
  deriving DecidableEq, Repr

/-- The reference count `mWakelockRefCount`, whether the process holds the wake lock named
`kWakeLockName`, and the log of the calls made to the power library.  The count is declared
in `HalProxy.h`, which is not among the sources; the spec calls it an integer, and it is
kept as an unbounded integer. -/
structure Wakelock where
  mWakelockRefCount : Int
  held : Bool
  powerCalls : List PowerCall
  deriving DecidableEq, Repr

/-- The start: count zero, lock not held, no call made. -/
def Wakelock.start : Wakelock :=
  { mWakelockRefCount := 0, held := false, powerCalls := [] }

/-- Source `HalProxy::incrementRefCountAndMaybeAcquireWakelock` (lines 396-402). -/
def incrementRefCountAndMaybeAcquireWakelock (s : Wakelock) : Wakelock :=
  if s.mWakelockRefCount == 0 then
    { mWakelockRefCount := s.mWakelockRefCount + 1
      held := true
      powerCalls := s.powerCalls ++ [PowerCall.acquire_wake_lock] }
  else
    { s with mWakelockRefCount := s.mWakelockRefCount + 1 }

/-- Source `HalProxy::decrementRefCountAndMaybeReleaseWakelock` (lines 404-410). -/
def decrementRefCountAndMaybeReleaseWakelock (s : Wakelock) : Wakelock :=
  if s.mWakelockRefCount - 1 == 0 then
    { mWakelockRefCount := s.mWakelockRefCount - 1
      held := false
      powerCalls := s.powerCalls ++ [PowerCall.release_wake_lock] }
  else
    { s with mWakelockRefCount := s.mWakelockRefCount - 1 }

/-- One operation on the reference count. -/
def Wakelock.step (s : Wakelock) : WakelockOp → Wakelock
  | WakelockOp.increment => incrementRefCountAndMaybeAcquireWakelock s
  | WakelockOp.decrement => decrementRefCountAndMaybeReleaseWakelock s

/-- The state after a sequence of operations from the start. -/
def Wakelock.after (ops : List WakelockOp) : Wakelock :=
  ops.foldl Wakelock.step Wakelock.start

/-! ## Concrete configurations used to exercise the definitions -/

/-- A sub-HAL that answers `OK` to every call. -/
def steadySubHal (addr : Nat) (sensorsList : List SensorInfo) : ISensorsSubHal :=
  { addr := addr
    sensorsList := sensorsList
    respond := fun _ _ => Result.OK
    calls := [] }

/-- A sub-HAL that answers `BAD_VALUE` to every call. -/
def refusingSubHal (addr : Nat) (sensorsList : List SensorInfo) : ISensorsSubHal :=
  { addr := addr
    sensorsList := sensorsList
    respond := fun _ _ => Result.BAD_VALUE
    calls := [] }

/-- A sub-HAL that answers `OK` to the first call it serves and `NO_MEMORY` to every
later one. -/
def brittleSubHal (addr : Nat) (sensorsList : List SensorInfo) : ISensorsSubHal :=
  { addr := addr
    sensorsList := sensorsList
    respond := fun served _ => if served.length = 0 then Result.OK else Result.NO_MEMORY
    calls := [] }

/-- A sensor descriptor with the given handle and flags. -/
def sensorWith (sensorHandle flags : Nat) : SensorInfo :=
  { sensorHandle := sensorHandle
    name := ""
    type := 1
    flags := flags
    other := [] }

/-- An event with the given handle and sensor type. -/
def eventWith (sensorHandle : Nat) (sensorType : Int) : Event :=
  { timestamp := 0
    sensorHandle := sensorHandle
    sensorType := sensorType
    u := [] }

/-! # Lemmas and theorems -/

/-! ### Arithmetic of the codec -/

theorem lt_of_subHalIndexIsClear {h : Nat} (hh : h < 2 ^ 32)
    (hc : subHalIndexIsClear h = true) : h < 2 ^ 24 := by
  apply Nat.lt_pow_two_of_testBit
  intro j hj
  by_cases hj32 : j < 32
  · have hz : h &&& kSensorHandleSubHalIndexMask = 0 := by
      simpa [subHalIndexIsClear] using hc
    have hb : (h &&& kSensorHandleSubHalIndexMask).testBit j = false := by
      rw [hz]; simp
    have hm : kSensorHandleSubHalIndexMask.testBit j = true := by
      have : kSensorHandleSubHalIndexMask = (2 ^ 8 - 1) <<< 24 := by decide
      rw [this, Nat.testBit_shiftLeft, Nat.testBit_two_pow_sub_one]
      simp
      omega
    rw [Nat.testBit_and, hm] at hb
    simpa using hb
  · apply Nat.testBit_lt_two_pow
    calc h < 2 ^ 32 := hh
      _ ≤ 2 ^ j := Nat.pow_le_pow_right (by decide) (by omega)

theorem subHalIndexIsClear_of_lt {h : Nat} (hh : h < 2 ^ 24) :
    subHalIndexIsClear h = true := by
  have hz : h &&& kSensorHandleSubHalIndexMask = 0 := by
    apply Nat.eq_of_testBit_eq
    intro j
    have : kSensorHandleSubHalIndexMask = (2 ^ 8 - 1) <<< 24 := by decide
    rw [Nat.testBit_and, this, Nat.testBit_shiftLeft, Nat.testBit_two_pow_sub_one]
    by_cases hj : 24 ≤ j
    · have : h.testBit j = false := by
        apply Nat.testBit_lt_two_pow
        calc h < 2 ^ 24 := hh
          _ ≤ 2 ^ j := Nat.pow_le_pow_right (by decide) hj
      simp [this]
    · simp [hj]
  simp [subHalIndexIsClear, hz]

/-- With a local handle below `2 ^ 24` and an index below `2 ^ 8`, the encoded handle is
the sum of the two disjoint bit fields. -/
theorem setSubHalIndex_eq_add {h i : Nat} (hh : h < 2 ^ 24) (hi : i < 2 ^ 8) :
    setSubHalIndex h i = 2 ^ 24 * i + h := by
  unfold setSubHalIndex
  have h1 : i <<< 24 = 2 ^ 24 * i := by
    rw [Nat.shiftLeft_eq, Nat.mul_comm]
  have h2 : 2 ^ 24 * i + h < 2 ^ 32 := by omega
  have h3 : 2 ^ 24 * i % 2 ^ 64 = 2 ^ 24 * i := Nat.mod_eq_of_lt (by omega)
  rw [h1, h3, Nat.lor_comm, ← Nat.mul_add_lt_is_or hh i, Nat.mod_eq_of_lt h2]

theorem clearSubHalIndex_eq_mod (g : Nat) : clearSubHalIndex g = g % 2 ^ 24 := by
  unfold clearSubHalIndex
  have : 2 ^ 32 - 1 - kSensorHandleSubHalIndexMask = 2 ^ 24 - 1 := by decide
  rw [this, Nat.and_pow_two_sub_one_eq_mod]

theorem subHalIndexOf_eq_div (g : Nat) : subHalIndexOf g = g / 2 ^ 24 := by
  unfold subHalIndexOf
  rw [Nat.shiftRight_eq_div_pow]

/-! ### Operation-mode coordinator -/

theorem modeOf_append_ok (subHal : ISensorsSubHal) (cs : List (SubHalCall × Result))
    (m : OperationMode) (h : subHal.calls = cs ++ [(SubHalCall.setOperationMode m, Result.OK)]) :
    subHal.modeOf = some m := by
  simp [ISensorsSubHal.modeOf, h, List.foldl_append]

theorem storeSubHal_length (subHals : List ISensorsSubHal) (subHal : ISensorsSubHal) :
    (storeSubHal subHals subHal).length = subHals.length := by
  simp [storeSubHal]

theorem storeSubHal_getElem?_addr (subHals : List ISensorsSubHal) (subHal : ISensorsSubHal)
    (j : Nat) :
    ((storeSubHal subHals subHal)[j]?).map ISensorsSubHal.addr =
      (subHals[j]?).map ISensorsSubHal.addr := by
  unfold storeSubHal
  rw [List.getElem?_map]
  cases subHals[j]? with
  | none => rfl
  | some b =>
    by_cases hb : b.addr = subHal.addr
    · simp [hb]
    · simp [hb]

theorem mem_storeSubHal {subHals : List ISensorsSubHal} {subHal b : ISensorsSubHal}
    (hb : b ∈ storeSubHal subHals subHal) :
    b = subHal ∨ (b ∈ subHals ∧ b.addr ≠ subHal.addr) := by
  unfold storeSubHal at hb
  rw [List.mem_map] at hb
  obtain ⟨c, hc, hcb⟩ := hb
  by_cases hca : c.addr = subHal.addr
  · left
    simpa [hca] using hcb.symm
  · right
    have : c = b := by simpa [hca] using hcb
    subst this
    exact ⟨hc, hca⟩

theorem modeOf_call (subHal : ISensorsSubHal) (m : OperationMode) :
    (subHal.call (SubHalCall.setOperationMode m)).2.modeOf =
      if subHal.respond subHal.calls (SubHalCall.setOperationMode m) = Result.OK then some m
      else subHal.modeOf := by
  unfold ISensorsSubHal.modeOf ISensorsSubHal.call
  simp only [List.foldl_append, List.foldl_cons, List.foldl_nil]
  cases subHal.respond subHal.calls (SubHalCall.setOperationMode m) <;> simp

/-- The first loop when the answers on the way are `OK` for `k` calls and then `r`, which is
not `OK`: it breaks at index `i + k` with result `r`, having made exactly these `k + 1`
calls. -/
theorem setOperationModeApply_fail (mode : OperationMode) (r : Result) (later : List Result)
    (hr : r ≠ Result.OK) :
    ∀ (k n i : Nat) (l : List ISensorsSubHal),
      modeAnswers mode n i l = List.replicate k Result.OK ++ r :: later →
      (setOperationModeApply mode n i l).result = r ∧
      (setOperationModeApply mode n i l).subHalIndex = i + k ∧
      (setOperationModeApply mode n i l).calls =
        (List.range' i k).map (fun j => (j, SubHalCall.setOperationMode mode, Result.OK)) ++
          [(i + k, SubHalCall.setOperationMode mode, r)] ∧
      (setOperationModeApply mode n i l).subHals.length = l.length ∧
      i + k < l.length := by
  intro k
  induction k with
  | zero =>
    intro n i l h
    cases n with
    | zero => simp [modeAnswers] at h
    | succ n =>
      cases hl : l[i]? with
      | none => simp [modeAnswers, hl] at h
      | some b =>
        simp only [modeAnswers, hl, List.replicate_zero, List.nil_append, List.cons.injEq] at h
        have hlt : i < l.length := (List.getElem?_eq_some.mp hl).1
        simp [setOperationModeApply, hl, h.1, hr, storeSubHal_length, hlt]
  | succ k ih =>
    intro n i l h
    cases n with
    | zero => simp [modeAnswers] at h
    | succ n =>
      cases hl : l[i]? with
      | none => simp [modeAnswers, hl, List.replicate_succ] at h
      | some b =>
        simp only [modeAnswers, hl, List.replicate_succ, List.cons_append,
          List.cons.injEq] at h
        have hlt : i < l.length := (List.getElem?_eq_some.mp hl).1
        obtain ⟨h1, h2, h3, h4, h5⟩ := ih n (i + 1) _ h.2
        rw [storeSubHal_length] at h4 h5
        simp only [setOperationModeApply, hl, h.1, bne_self_eq_false, Bool.false_eq_true,
          if_false]
        refine ⟨h1, ?_, ?_, h4, ?_⟩
        · rw [h2]
          omega
        · rw [h3, List.range'_succ]
          simp [Nat.add_assoc, Nat.add_comm 1 k]
        · omega

/-- The first loop when every answer on the way is `OK`: it ends with `OK`. -/
theorem setOperationModeApply_ok (mode : OperationMode) :
    ∀ (n i : Nat) (l : List ISensorsSubHal),
      (∀ r ∈ modeAnswers mode n i l, r = Result.OK) →
      (setOperationModeApply mode n i l).result = Result.OK := by
  intro n
  induction n with
  | zero =>
    intro i l _
    rfl
  | succ n ih =>
    intro i l h
    cases hl : l[i]? with
    | none => simp [setOperationModeApply, hl]
    | some b =>
      simp only [modeAnswers, hl, List.mem_cons, forall_eq_or_imp] at h
      simp only [setOperationModeApply, hl, h.1, bne_self_eq_false, Bool.false_eq_true,
        if_false]
      exact ih (i + 1) _ h.2

theorem setOperationModeReset_getElem?_addr (current : OperationMode) :
    ∀ (count i : Nat) (l : List ISensorsSubHal) (j : Nat),
      ((setOperationModeReset current count i l).1[j]?).map ISensorsSubHal.addr =
        (l[j]?).map ISensorsSubHal.addr := by
  intro count
  induction count with
  | zero =>
    intro i l j
    rfl
  | succ count ih =>
    intro i l j
    cases hl : l[i]? with
    | none => simp [setOperationModeReset, hl]
    | some b =>
      simp only [setOperationModeReset, hl]
      rw [ih, storeSubHal_getElem?_addr]

/-- The rollback loop calls exactly the indices `i`, ..., `i + count - 1`, in this order,
each with `setOperationMode(current)`. -/
theorem setOperationModeReset_calls (current : OperationMode) :
    ∀ (count i : Nat) (l : List ISensorsSubHal), i + count ≤ l.length →
      (setOperationModeReset current count i l).2.map (fun t => (t.1, t.2.1)) =
        (List.range' i count).map (fun j => (j, SubHalCall.setOperationMode current)) := by
  intro count
  induction count with
  | zero =>
    intro i l _
    rfl
  | succ count ih =>
    intro i l hlen
    have hlt : i < l.length := by omega
    have hl : l[i]? = some l[i] := List.getElem?_eq_getElem hlt
    simp only [setOperationModeReset, hl, List.map_cons, List.range'_succ]
    rw [ih (i + 1) _ (by rw [storeSubHal_length]; omega)]

/-- A sub-HAL object that is in mode `current` stays in it through the rollback loop. -/
theorem setOperationModeReset_keeps (current : OperationMode) (a : Nat) :
    ∀ (count i : Nat) (l : List ISensorsSubHal),
      (∀ b ∈ l, b.addr = a → b.modeOf = some current) →
      ∀ b ∈ (setOperationModeReset current count i l).1, b.addr = a →
        b.modeOf = some current := by
  intro count
  induction count with
  | zero =>
    intro i l h
    exact h
  | succ count ih =>
    intro i l h
    cases hl : l[i]? with
    | none =>
      simp only [setOperationModeReset, hl]
      exact h
    | some x =>
      simp only [setOperationModeReset, hl]
      apply ih
      intro b hb hba
      rcases mem_storeSubHal hb with hbx | ⟨hbl, _⟩
      · have hxa : x.addr = a := by
          rw [hbx] at hba
          exact hba
        have hx := h x (List.getElem?_mem hl) hxa
        rw [hbx, modeOf_call, hx]
        simp
      · exact h b hbl hba

/-- After the rollback loop, a sub-HAL whose rollback call was answered `OK` is in mode
`current`. -/
theorem setOperationModeReset_modeOf (current : OperationMode) :
    ∀ (count i : Nat) (l : List ISensorsSubHal) (j : Nat) (b : ISensorsSubHal),
      (j, SubHalCall.setOperationMode current, Result.OK) ∈
        (setOperationModeReset current count i l).2 →
      (setOperationModeReset current count i l).1[j]? = some b →
      b.modeOf = some current := by
  intro count
  induction count with
  | zero =>
    intro i l j b hmem _
    simp [setOperationModeReset] at hmem
  | succ count ih =>
    intro i l j b hmem hb
    cases hl : l[i]? with
    | none => simp [setOperationModeReset, hl] at hmem
    | some x =>
      simp only [setOperationModeReset, hl, List.mem_cons] at hmem hb
      rcases hmem with hhead | htail
      · simp only [Prod.mk.injEq, true_and] at hhead
        obtain ⟨hji, hok⟩ := hhead
        subst hji
        have haddr := setOperationModeReset_getElem?_addr current count (j + 1)
          (storeSubHal l (x.call (SubHalCall.setOperationMode current)).2) j
        rw [hb, storeSubHal_getElem?_addr, hl] at haddr
        simp only [Option.map_some', Option.some.injEq] at haddr
        apply setOperationModeReset_keeps current x.addr count (j + 1)
          (storeSubHal l (x.call (SubHalCall.setOperationMode current)).2) _ b
          (List.getElem?_mem hb) haddr
        intro c hc hca
        rcases mem_storeSubHal hc with hcx | ⟨_, hne⟩
        · rw [hcx, modeOf_call]
          simp only [ISensorsSubHal.call] at hok
          simp [← hok]
        · exact absurd hca hne
      · exact ih (i + 1) _ j b htail hb

theorem storeSubHal_map_addr (subHals : List ISensorsSubHal) (subHal : ISensorsSubHal) :
    (storeSubHal subHals subHal).map ISensorsSubHal.addr =
      subHals.map ISensorsSubHal.addr := by
  apply List.ext_getElem?
  intro j
  rw [List.getElem?_map, List.getElem?_map, storeSubHal_getElem?_addr]

theorem storeSubHal_getElem?_ne (subHals : List ISensorsSubHal) (subHal b : ISensorsSubHal)
    (i j : Nat) (hnd : (subHals.map ISensorsSubHal.addr).Nodup) (hi : subHals[i]? = some b)
    (hx : subHal.addr = b.addr) (hj : j ≠ i) :
    (storeSubHal subHals subHal)[j]? = subHals[j]? := by
  unfold storeSubHal
  rw [List.getElem?_map]
  cases hc : subHals[j]? with
  | none => rfl
  | some c =>
    have hne : ¬ c.addr = subHal.addr := by
      intro h
      have hj2 : j < (subHals.map ISensorsSubHal.addr).length := by
        have := (List.getElem?_eq_some.mp hc).1
        simpa using this
      have := List.getElem?_inj hj2 hnd
        (by rw [List.getElem?_map, List.getElem?_map, hc, hi]; simp [h, hx] :
          (subHals.map ISensorsSubHal.addr)[j]? = (subHals.map ISensorsSubHal.addr)[i]?)
      exact hj this
    simp [hne]

/-- For sub-HALs with pairwise distinct identities, the answers in turn are the answers each
sub-HAL gives from its own log. -/
theorem modeAnswers_of_nodup (mode : OperationMode) :
    ∀ (n i : Nat) (l : List ISensorsSubHal), (l.map ISensorsSubHal.addr).Nodup →
      modeAnswers mode n i l =
        ((l.drop i).take n).map
          (fun b => b.respond b.calls (SubHalCall.setOperationMode mode)) := by
  intro n
  induction n with
  | zero =>
    intro i l _
    simp [modeAnswers]
  | succ n ih =>
    intro i l hnd
    cases hl : l[i]? with
    | none =>
      have hlen : l.length ≤ i := by
        rcases Nat.lt_or_ge i l.length with h | h
        · rw [List.getElem?_eq_getElem h] at hl
          cases hl
        · exact h
      simp [modeAnswers, hl, List.drop_eq_nil_of_le hlen]
    | some b =>
      have hlt : i < l.length := (List.getElem?_eq_some.mp hl).1
      have hb : l[i] = b := (List.getElem?_eq_some.mp hl).2
      have hdrop : (storeSubHal l (b.call (SubHalCall.setOperationMode mode)).2).drop (i + 1) =
          l.drop (i + 1) := by
        apply List.ext_getElem?
        intro m
        rw [List.getElem?_drop, List.getElem?_drop]
        exact storeSubHal_getElem?_ne l _ b i (i + 1 + m) hnd hl rfl (by omega)
      have hnd2 : ((storeSubHal l (b.call (SubHalCall.setOperationMode mode)).2).map
          ISensorsSubHal.addr).Nodup := by
        rw [storeSubHal_map_addr]
        exact hnd
      simp only [modeAnswers, hl]
      rw [ih (i + 1) _ hnd2, hdrop, List.drop_eq_getElem_cons hlt, hb]
      simp [ISensorsSubHal.call]

/-! ### Dispatch router -/

theorem callSubHalForSensorHandle_eq (p : HalProxy) (g : Nat) (c : SubHalCall)
    (subHal : ISensorsSubHal) (h : p.mSubHalList[g >>> 24]? = some subHal) :
    callSubHalForSensorHandle p g c =
      some (subHal.respond subHal.calls c,
        { p with
          mSubHalList := p.mSubHalList.set (g >>> 24)
            { subHal with calls := subHal.calls ++ [(c, subHal.respond subHal.calls c)] } }) := by
  simp [callSubHalForSensorHandle, getSubHalForSensorHandle, subHalIndexOf, h,
    ISensorsSubHal.call]

/-! ### Sensor registry -/

theorem mem_mapAssign (m : List (Nat × SensorInfo)) (key : Nat) (value : SensorInfo)
    (e : Nat × SensorInfo) :
    e ∈ mapAssign m key value ↔ e = (key, value) ∨ (e ∈ m ∧ e.1 ≠ key) := by
  simp [mapAssign, List.mem_filter]

/-- The four outcomes of `loadSensor` on a sensor with a clear handle. -/
theorem loadSensor_clear (subHalIndex : Nat) (subHal : ISensorsSubHal) (p : HalProxy)
    (sensor : SensorInfo) (hc : subHalIndexIsClear sensor.sensorHandle = true) :
    loadSensor subHalIndex subHal p sensor =
      { p with
        mSensors :=
          mapAssign p.mSensors (setSubHalIndex sensor.sensorHandle subHalIndex)
            { sensor with
              sensorHandle := setSubHalIndex sensor.sensorHandle subHalIndex
              flags :=
                if p.mDirectChannelSubHal ≠ none ∧
                    p.mDirectChannelSubHal ≠ some subHal.addr then
                  sensor.flags &&&
                    (2 ^ 32 - 1 -
                      (SensorFlagBits.MASK_DIRECT_REPORT |||
                        SensorFlagBits.MASK_DIRECT_CHANNEL))
                else sensor.flags }
        mDirectChannelSubHal :=
          if p.mDirectChannelSubHal = none ∧
              sensor.flags &&&
                (SensorFlagBits.MASK_DIRECT_REPORT ||| SensorFlagBits.MASK_DIRECT_CHANNEL) ≠ 0
          then some subHal.addr
          else p.mDirectChannelSubHal } := by
  unfold loadSensor setDirectChannelFlags setSubHalIndex
  simp only [hc, Bool.not_true, Bool.false_eq_true, if_false]
  cases hd : p.mDirectChannelSubHal with
  | none =>
    by_cases hsup : sensor.flags &&&
        (SensorFlagBits.MASK_DIRECT_REPORT ||| SensorFlagBits.MASK_DIRECT_CHANNEL) = 0
    · simp [hsup, hd]
    · simp [hsup, hd]
  | some a =>
    by_cases ha : subHal.addr = a
    · simp [ha, hd]
    · have ha2 : ¬ a = subHal.addr := fun h => ha h.symm
      simp [ha, ha2, hd]

theorem loadSensor_inv (subHals : List ISensorsSubHal) (subHalIndex : Nat)
    (subHal : ISensorsSubHal) (p : HalProxy) (sensor : SensorInfo)
    (hidx : subHals[subHalIndex]? = some subHal) (hmem : sensor ∈ subHal.sensorsList)
    (hinv : RegistryInv subHals p) :
    RegistryInv subHals (loadSensor subHalIndex subHal p sensor) := by
  by_cases hc : subHalIndexIsClear sensor.sensorHandle = true
  · rw [loadSensor_clear _ _ _ _ hc]
    intro g s hgs
    simp only at hgs
    rw [mem_mapAssign] at hgs
    rcases hgs with hnew | ⟨hold, _⟩
    · simp only [Prod.mk.injEq] at hnew
      obtain ⟨hg, hs⟩ := hnew
      subst hg hs
      refine ⟨subHalIndex, subHal, sensor, ⟨hidx, hmem, hc, rfl, rfl, rfl, rfl, rfl⟩, ?_⟩
      cases hd : p.mDirectChannelSubHal with
      | none =>
        by_cases hsup : sensor.flags &&&
            (SensorFlagBits.MASK_DIRECT_REPORT ||| SensorFlagBits.MASK_DIRECT_CHANNEL) = 0
        · simp [hsup]
        · simp [hsup]
      | some a =>
        by_cases ha : a = subHal.addr
        · simp [ha]
        · simp [ha]
    · obtain ⟨i, b, s0, hst, h1, h2, h3⟩ := hinv g s hold
      refine ⟨i, b, s0, hst, ?_⟩
      cases hd : p.mDirectChannelSubHal with
      | none =>
        have h3b := h3 hd
        by_cases hsup : sensor.flags &&&
            (SensorFlagBits.MASK_DIRECT_REPORT ||| SensorFlagBits.MASK_DIRECT_CHANNEL) = 0
        · simp [hsup, h3b]
        · simp [hsup, h3b]
      | some a =>
        rw [hd] at h1 h2
        simp only [reduceCtorEq, false_and, if_false]
        exact ⟨h1, h2, fun h => by cases h⟩
  · have hc2 : subHalIndexIsClear sensor.sensorHandle = false := by
      simpa using hc
    simp only [loadSensor, hc2, Bool.not_false, if_true]
    exact hinv

theorem foldl_loadSensor_inv (subHals : List ISensorsSubHal) (subHalIndex : Nat)
    (subHal : ISensorsSubHal) (hidx : subHals[subHalIndex]? = some subHal)
    (sensors : List SensorInfo) (hsub : ∀ s ∈ sensors, s ∈ subHal.sensorsList)
    (p : HalProxy) (hinv : RegistryInv subHals p) :
    RegistryInv subHals (sensors.foldl (loadSensor subHalIndex subHal) p) := by
  induction sensors generalizing p with
  | nil => exact hinv
  | cons s rest ih =>
    simp only [List.foldl_cons]
    apply ih (fun t ht => hsub t (List.mem_cons_of_mem _ ht))
    exact loadSensor_inv subHals subHalIndex subHal p s hidx
      (hsub s (List.mem_cons_self _ _)) hinv

theorem initializeSensorListFrom_inv (subHals : List ISensorsSubHal) :
    ∀ (rest done : List ISensorsSubHal) (p : HalProxy), subHals = done ++ rest →
      RegistryInv subHals p →
      RegistryInv subHals (initializeSensorListFrom done.length rest p) := by
  intro rest
  induction rest with
  | nil =>
    intro done p _ hinv
    simpa [initializeSensorListFrom] using hinv
  | cons subHal tl ih =>
    intro done p hsplit hinv
    have hidx : subHals[done.length]? = some subHal := by
      rw [hsplit, List.getElem?_append_right (Nat.le_refl _)]
      simp
    have hstep := foldl_loadSensor_inv subHals done.length subHal hidx subHal.sensorsList
      (fun _ h => h) p hinv
    have hnext := ih (done ++ [subHal])
      (subHal.sensorsList.foldl (loadSensor done.length subHal) p) (by simp [hsplit]) hstep
    simpa [initializeSensorListFrom] using hnext

/-- The registry built by the constructor satisfies the construction invariant. -/
theorem initializeSensorList_inv (subHals : List ISensorsSubHal) :
    RegistryInv subHals (initializeSensorList (HalProxy.create subHals)) := by
  have h := initializeSensorListFrom_inv subHals subHals [] (HalProxy.create subHals) rfl
    (by intro g s hgs; simp [HalProxy.create] at hgs)
  simpa [initializeSensorList, HalProxy.create] using h



theorem setSubHalIndex_roundtrip (h i : Nat) (hh : h < 2 ^ 32)
    (hc : subHalIndexIsClear h = true) (hi : i ≤ 255) :
    clearSubHalIndex (setSubHalIndex h i) = h ∧ setSubHalIndex h i >>> 24 = i := by
  have h24 : h < 2 ^ 24 := lt_of_subHalIndexIsClear hh hc
  have hi8 : i < 2 ^ 8 := by omega
  have hs := subHalIndexOf_eq_div (setSubHalIndex h i)
  unfold subHalIndexOf at hs
  rw [clearSubHalIndex_eq_mod, hs, setSubHalIndex_eq_add h24 hi8]
  constructor
  · rw [Nat.mul_add_mod]
    exact Nat.mod_eq_of_lt h24
  · omega

/-! ### Flag masks -/

theorem and_directMasks_eq_zero {x : Nat}
    (h : x &&& (SensorFlagBits.MASK_DIRECT_REPORT ||| SensorFlagBits.MASK_DIRECT_CHANNEL) = 0) :
    x &&& SensorFlagBits.MASK_DIRECT_REPORT = 0 ∧
      x &&& SensorFlagBits.MASK_DIRECT_CHANNEL = 0 := by
  have hbit : ∀ j, (x.testBit j &&
      (SensorFlagBits.MASK_DIRECT_REPORT.testBit j ||
        SensorFlagBits.MASK_DIRECT_CHANNEL.testBit j)) = false := by
    intro j
    have := congrArg (fun n => Nat.testBit n j) h
    simpa using this
  constructor
  · apply Nat.eq_of_testBit_eq
    intro j
    have := hbit j
    rw [Nat.testBit_and, Nat.zero_testBit]
    cases hx : x.testBit j <;> cases hr : SensorFlagBits.MASK_DIRECT_REPORT.testBit j <;>
      simp [hx, hr] at this ⊢
  · apply Nat.eq_of_testBit_eq
    intro j
    have := hbit j
    rw [Nat.testBit_and, Nat.zero_testBit]
    cases hx : x.testBit j <;> cases hr : SensorFlagBits.MASK_DIRECT_CHANNEL.testBit j <;>
      simp [hx, hr] at this ⊢

theorem directFlagsCleared_self {x : Nat}
    (h : x &&& (SensorFlagBits.MASK_DIRECT_REPORT ||| SensorFlagBits.MASK_DIRECT_CHANNEL) = 0) :
    DirectFlagsCleared x x :=
  ⟨(and_directMasks_eq_zero h).1, (and_directMasks_eq_zero h).2, fun _ _ => rfl⟩

theorem directFlagsCleared_masked {x : Nat} (hx : x < 2 ^ 32) :
    DirectFlagsCleared
      (x &&& (2 ^ 32 - 1 -
        (SensorFlagBits.MASK_DIRECT_REPORT ||| SensorFlagBits.MASK_DIRECT_CHANNEL))) x := by
  have hz : (x &&& (2 ^ 32 - 1 -
      (SensorFlagBits.MASK_DIRECT_REPORT ||| SensorFlagBits.MASK_DIRECT_CHANNEL))) &&&
      (SensorFlagBits.MASK_DIRECT_REPORT ||| SensorFlagBits.MASK_DIRECT_CHANNEL) = 0 := by
    rw [Nat.and_assoc]
    have : (2 ^ 32 - 1 -
        (SensorFlagBits.MASK_DIRECT_REPORT ||| SensorFlagBits.MASK_DIRECT_CHANNEL)) &&&
        (SensorFlagBits.MASK_DIRECT_REPORT ||| SensorFlagBits.MASK_DIRECT_CHANNEL) = 0 := by
      decide
    rw [this, Nat.and_zero]
  refine ⟨(and_directMasks_eq_zero hz).1, (and_directMasks_eq_zero hz).2, ?_⟩
  intro j hj
  have hm : 2 ^ 32 - 1 -
      (SensorFlagBits.MASK_DIRECT_REPORT ||| SensorFlagBits.MASK_DIRECT_CHANNEL) =
      (2 ^ 32 - 1) ^^^
        (SensorFlagBits.MASK_DIRECT_REPORT ||| SensorFlagBits.MASK_DIRECT_CHANNEL) := by
    decide
  rw [Nat.testBit_and, hm, Nat.testBit_xor, hj, Nat.testBit_two_pow_sub_one]
  by_cases hj32 : j < 32
  · simp [hj32]
  · have : x.testBit j = false := by
      apply Nat.testBit_lt_two_pow
      calc x < 2 ^ 32 := hx
        _ ≤ 2 ^ j := Nat.pow_le_pow_right (by decide) (by omega)
    simp [this]

/-! ### Wake-lock reference count -/

theorem wakelock_take_succ (ops : List WakelockOp) (k : Nat) (op : WakelockOp)
    (hk : ops[k]? = some op) : ops.take (k + 1) = ops.take k ++ [op] := by
  rw [List.take_succ, hk]
  rfl

theorem wakelock_after_succ (ops : List WakelockOp) (k : Nat) (op : WakelockOp)
    (hk : ops[k]? = some op) :
    Wakelock.after (ops.take (k + 1)) = (Wakelock.after (ops.take k)).step op := by
  rw [wakelock_take_succ ops k op hk]
  simp [Wakelock.after, List.foldl_append]

/-- The reference count is acquires minus releases and the lock is held exactly while it is
positive, after any number of calls of a sequence in which releases never outnumber
acquires. -/
theorem wakelock_count_held (ops : List WakelockOp)
    (hbal : ∀ k, (ops.take k).count WakelockOp.decrement ≤
      (ops.take k).count WakelockOp.increment) (k : Nat) :
    (Wakelock.after (ops.take k)).mWakelockRefCount =
        ((ops.take k).count WakelockOp.increment : Int) -
          ((ops.take k).count WakelockOp.decrement : Int) ∧
      ((Wakelock.after (ops.take k)).held = true ↔
        0 < (Wakelock.after (ops.take k)).mWakelockRefCount) := by
  induction k with
  | zero => simp [Wakelock.after, Wakelock.start]
  | succ k ih =>
    cases hk : ops[k]? with
    | none =>
      have ht : ops.take (k + 1) = ops.take k := by
        rw [List.take_succ, hk]
        simp
      rw [ht]
      exact ih
    | some op =>
      have hb1 := hbal (k + 1)
      have hb0 := hbal k
      rw [wakelock_after_succ ops k op hk]
      rw [wakelock_take_succ ops k op hk] at hb1 ⊢
      rw [List.count_append] at hb1 ⊢
      rw [List.count_append] at hb1 ⊢
      obtain ⟨hc, hh⟩ := ih
      cases op with
      | increment =>
        simp only [List.count_singleton, Wakelock.step,
          incrementRefCountAndMaybeAcquireWakelock] at hb1 ⊢
        by_cases hz : (Wakelock.after (ops.take k)).mWakelockRefCount = 0
        · simp [hz]
          omega
        · simp [hz]
          constructor
          · omega
          · rw [hh]
            omega
      | decrement =>
        simp only [List.count_singleton, Wakelock.step,
          decrementRefCountAndMaybeReleaseWakelock] at hb1 ⊢
        by_cases hz : (Wakelock.after (ops.take k)).mWakelockRefCount - 1 = 0
        · simp [hz]
          omega
        · simp [hz]
          constructor
          · omega
          · rw [hh]
            simp at hb1
            omega

/-! ### Output-channel writer -/

theorem writtenEvents_append (a b : List QueueOp) :
    writtenEvents (a ++ b) = writtenEvents a ++ writtenEvents b := by
  induction a with
  | nil => rfl
  | cons op ops ih =>
    cases op with
    | write events ok => cases ok <;> simp [writtenEvents, ih]
    | writeBlocking events ok => cases ok <;> simp [writtenEvents, ih]
    | wake => simp [writtenEvents, ih]

theorem handedEvents_append (a b : List QueueOp) :
    handedEvents (a ++ b) = handedEvents a ++ handedEvents b := by
  induction a with
  | nil => rfl
  | cons op ops ih =>
    cases op with
    | write events ok => cases ok <;> simp [handedEvents, ih]
    | writeBlocking events ok => cases ok <;> simp [handedEvents, ih]
    | wake => simp [handedEvents, ih]

/-- The outcome of `postEventsToMessageQueue` on an empty backlog when the write, if one
is attempted, succeeds. -/
theorem postEventsToMessageQueue_empty_ok (w : Writer) (events : List Event) (r : Nat)
    (hq : w.mPendingWriteEventsQueue = []) :
    postEventsToMessageQueue w events r true =
      { mPendingWriteEventsQueue :=
          if min events.length r < events.length then [events.drop (min events.length r)]
          else []
        queueOps :=
          w.queueOps ++
            (if 0 < min events.length r then
              [QueueOp.write (events.take (min events.length r)) true, QueueOp.wake]
            else []) } := by
  by_cases hpos : 0 < min events.length r
  · have hw : postEventsWrite w events r true =
        (min events.length r,
          [QueueOp.write (events.take (min events.length r)) true, QueueOp.wake]) := by
      simp [postEventsWrite, hq, hpos]
    unfold postEventsToMessageQueue
    rw [hw]
    by_cases hlt : min events.length r < events.length
    · simp [hlt, hq, hpos]
    · simp [hlt, hq, hpos]
  · have hw : postEventsWrite w events r true = (min events.length r, []) := by
      simp [postEventsWrite, hq, hpos]
    unfold postEventsToMessageQueue
    rw [hw]
    by_cases hlt : min events.length r < events.length
    · simp [hlt, hq, hpos]
    · simp [hlt, hq, hpos]

/-- The outcome of `postEventsToMessageQueue` when the backlog is non-empty, the queue has
no room, or the write fails: `numToWrite` ends as 0. -/
theorem postEventsToMessageQueue_kept (w : Writer) (events : List Event) (r : Nat) (ok : Bool)
    (hcase : w.mPendingWriteEventsQueue ≠ [] ∨ r = 0 ∨ ok = false) :
    postEventsToMessageQueue w events r ok =
      { mPendingWriteEventsQueue :=
          if 0 < events.length then w.mPendingWriteEventsQueue ++ [events]
          else w.mPendingWriteEventsQueue
        queueOps :=
          w.queueOps ++
            (if w.mPendingWriteEventsQueue = [] ∧ 0 < min events.length r then
              [QueueOp.write (events.take (min events.length r)) false]
            else []) } := by
  have hw : postEventsWrite w events r ok =
      (0, if w.mPendingWriteEventsQueue = [] ∧ 0 < min events.length r then
          [QueueOp.write (events.take (min events.length r)) false]
        else []) := by
    by_cases hq : w.mPendingWriteEventsQueue = []
    · by_cases hpos : 0 < min events.length r
      · rcases hcase with h | h | h
        · exact absurd hq h
        · omega
        · subst h
          simp [postEventsWrite, hq, hpos]
      · have hzero : min events.length r = 0 := by omega
        simp [postEventsWrite, hq, hzero]
    · have hne : w.mPendingWriteEventsQueue.isEmpty = false := by
        cases hl : w.mPendingWriteEventsQueue with
        | nil => exact absurd hl hq
        | cons _ _ => rfl
      simp [postEventsWrite, hne, hq]
  unfold postEventsToMessageQueue
  rw [hw]
  by_cases hlen : 0 < events.length
  · simp [hlen]
  · simp [hlen]

theorem postEventsToMessageQueue_order (w : Writer) (events : List Event) (r : Nat)
    (ok : Bool) :
    handedEvents (postEventsToMessageQueue w events r ok).queueOps ++
        (postEventsToMessageQueue w events r ok).mPendingWriteEventsQueue.flatten =
      handedEvents w.queueOps ++ w.mPendingWriteEventsQueue.flatten ++ events := by
  have hkept : (w.mPendingWriteEventsQueue ≠ [] ∨ r = 0 ∨ ok = false) →
      handedEvents (postEventsToMessageQueue w events r ok).queueOps ++
          (postEventsToMessageQueue w events r ok).mPendingWriteEventsQueue.flatten =
        handedEvents w.queueOps ++ w.mPendingWriteEventsQueue.flatten ++ events := by
    intro hcase
    rw [postEventsToMessageQueue_kept w events r ok hcase]
    dsimp only
    have hops : handedEvents (w.queueOps ++
        (if w.mPendingWriteEventsQueue = [] ∧ 0 < min events.length r then
          [QueueOp.write (events.take (min events.length r)) false]
        else [])) = handedEvents w.queueOps := by
      rw [handedEvents_append]
      split <;> simp [handedEvents]
    rw [hops]
    by_cases hlen : 0 < events.length
    · simp [hlen]
    · have hnil : events = [] := List.eq_nil_of_length_eq_zero (by omega)
      simp [hnil]
  by_cases hq : w.mPendingWriteEventsQueue = []
  · cases ok with
    | false => exact hkept (Or.inr (Or.inr rfl))
    | true =>
      rw [postEventsToMessageQueue_empty_ok w events r hq]
      dsimp only
      have hops : handedEvents (w.queueOps ++
          (if 0 < min events.length r then
            [QueueOp.write (events.take (min events.length r)) true, QueueOp.wake]
          else [])) = handedEvents w.queueOps ++ events.take (min events.length r) := by
        rw [handedEvents_append]
        by_cases hpos : 0 < min events.length r
        · rw [if_pos hpos]
          simp [handedEvents]
        · have hzero : min events.length r = 0 := by omega
          rw [if_neg hpos, hzero]
          simp [handedEvents]
      have hback : (if min events.length r < events.length then
          [events.drop (min events.length r)] else []).flatten =
          events.drop (min events.length r) := by
        by_cases hlt : min events.length r < events.length
        · rw [if_pos hlt]
          simp
        · rw [if_neg hlt, List.drop_eq_nil_of_le (by omega)]
          simp
      rw [hops, hback, hq, List.append_assoc, List.take_append_drop]
      simp
  · exact hkept (Or.inl hq)

theorem postEventsToMessageQueue_head (w : Writer) (events : List Event) (r : Nat) (ok : Bool)
    (pendingWriteEvents : List Event) (rest : List (List Event))
    (hq : w.mPendingWriteEventsQueue = pendingWriteEvents :: rest) :
    ∃ rest2, (postEventsToMessageQueue w events r ok).mPendingWriteEventsQueue =
      pendingWriteEvents :: rest2 := by
  rw [postEventsToMessageQueue_kept w events r ok (Or.inl (by rw [hq]; simp))]
  dsimp only
  by_cases hlen : 0 < events.length
  · rw [if_pos hlen, hq]
    exact ⟨rest ++ [events], rfl⟩
  · rw [if_neg hlen, hq]
    exact ⟨rest, rfl⟩

theorem pendingWriteEnd_order (w : Writer) (eventQueueSize : Nat) (writeOk : Bool)
    (pendingWriteEvents : List Event) (rest : List (List Event))
    (hq : w.mPendingWriteEventsQueue = pendingWriteEvents :: rest) :
    handedEvents
          (pendingWriteEnd w (min pendingWriteEvents.length eventQueueSize) eventQueueSize
            writeOk).queueOps ++
        (pendingWriteEnd w (min pendingWriteEvents.length eventQueueSize) eventQueueSize
          writeOk).mPendingWriteEventsQueue.flatten =
      handedEvents w.queueOps ++ w.mPendingWriteEventsQueue.flatten := by
  have hops : ∀ evs : List Event, handedEvents (w.queueOps ++
      (if writeOk then [QueueOp.writeBlocking evs true, QueueOp.wake]
        else [QueueOp.writeBlocking evs false])) = handedEvents w.queueOps ++ evs := by
    intro evs
    rw [handedEvents_append]
    cases writeOk <;> simp [handedEvents]
  unfold pendingWriteEnd
  rw [hq]
  dsimp only
  rw [hops]
  by_cases hgt : pendingWriteEvents.length > eventQueueSize
  · have hmin : min pendingWriteEvents.length eventQueueSize = eventQueueSize := by omega
    rw [if_pos hgt, hmin]
    simp only [List.flatten_cons]
    rw [List.append_assoc,
      ← List.append_assoc (List.take eventQueueSize pendingWriteEvents),
      List.take_append_drop]
  · have hmin : min pendingWriteEvents.length eventQueueSize = pendingWriteEvents.length := by
      omega
    rw [if_neg hgt, hmin]
    simp

theorem writerStep_inv (s : WriterSystem) (sub : List (List Event)) (st : WriterStep)
    (hinv : WriterInv s sub) : WriterInv (s.step st) (sub ++ st.submitted) := by
  obtain ⟨hord, hfl⟩ := hinv
  cases st with
  | post events r ok =>
    constructor
    · simp only [WriterSystem.step, WriterStep.submitted]
      rw [postEventsToMessageQueue_order, hord]
      simp
    · intro n c hin
      simp only [WriterSystem.step] at hin ⊢
      obtain ⟨hd, rest, hq, hn⟩ := hfl n c hin
      obtain ⟨rest2, hq2⟩ := postEventsToMessageQueue_head s.writer events r ok hd rest hq
      exact ⟨hd, rest2, hq2, hn⟩
  | iteration c ok =>
    simp only [WriterStep.submitted, List.append_nil]
    cases hin : s.inFlight with
    | some v =>
      simp only [WriterSystem.step, hin]
      exact ⟨hord, hfl⟩
    | none =>
      simp only [WriterSystem.step, hin]
      constructor
      · cases hq : s.writer.mPendingWriteEventsQueue with
        | nil =>
          simp only [handlePendingWritesIteration, pendingWriteBegin, hq]
          rw [hq] at hord
          exact hord
        | cons hd rest =>
          simp only [handlePendingWritesIteration, pendingWriteBegin, hq]
          rw [pendingWriteEnd_order s.writer c ok hd rest hq, hord]
      · intro n c2 h
        cases h
  | drainBegin c =>
    simp only [WriterStep.submitted, List.append_nil]
    cases hin : s.inFlight with
    | some v =>
      simp only [WriterSystem.step, hin]
      exact ⟨hord, hfl⟩
    | none =>
      simp only [WriterSystem.step, hin]
      refine ⟨hord, ?_⟩
      intro n c2 h
      simp only [pendingWriteBegin] at h
      cases hq : s.writer.mPendingWriteEventsQueue with
      | nil =>
        rw [hq] at h
        cases h
      | cons hd rest =>
        rw [hq] at h
        simp only [Option.some.injEq, Prod.mk.injEq] at h
        exact ⟨hd, rest, rfl, by rw [← h.1, h.2]⟩
  | drainEnd ok =>
    simp only [WriterStep.submitted, List.append_nil]
    cases hin : s.inFlight with
    | none =>
      simp only [WriterSystem.step, hin]
      exact ⟨hord, hfl⟩
    | some v =>
      obtain ⟨n, c⟩ := v
      obtain ⟨hd, rest, hq, hn⟩ := hfl n c hin
      simp only [WriterSystem.step, hin]
      constructor
      · rw [hn, pendingWriteEnd_order s.writer c ok hd rest hq, hord]
      · intro n2 c2 h
        cases h

theorem writerRun_inv (steps : List WriterStep) :
    ∀ (s : WriterSystem) (sub : List (List Event)), WriterInv s sub →
      WriterInv (steps.foldl WriterSystem.step s) (sub ++ submittedBatches steps) := by
  induction steps with
  | nil =>
    intro s sub hinv
    simpa [submittedBatches] using hinv
  | cons st tl ih =>
    intro s sub hinv
    have h := ih (s.step st) (sub ++ st.submitted) (writerStep_inv s sub st hinv)
    simpa [submittedBatches, List.append_assoc] using h

/-! ### Direct-channel calls -/

theorem callDirectChannelSubHal_eq (c : SubHalCall) (subHal : ISensorsSubHal) :
    ∀ (subHals : List ISensorsSubHal) (i : Nat), subHals[i]? = some subHal →
      (subHals.map ISensorsSubHal.addr).Nodup →
      callDirectChannelSubHal subHal.addr c subHals =
        some ((subHal.respond subHal.calls c, subHal.respondValue subHal.calls c),
          subHals.set i
            { subHal with calls := subHal.calls ++ [(c, subHal.respond subHal.calls c)] }) := by
  intro subHals
  induction subHals with
  | nil =>
    intro i hi _
    simp at hi
  | cons b rest ih =>
    intro i hi hnd
    cases i with
    | zero =>
      simp only [List.getElem?_cons_zero, Option.some.injEq] at hi
      subst hi
      simp [callDirectChannelSubHal, ISensorsSubHal.call]
    | succ j =>
      simp only [List.getElem?_cons_succ] at hi
      rw [List.map_cons, List.nodup_cons] at hnd
      have hmem : subHal.addr ∈ rest.map ISensorsSubHal.addr :=
        List.mem_map_of_mem _ (List.getElem?_mem hi)
      have hne : ¬ b.addr = subHal.addr := by
        intro h
        rw [h] at hnd
        exact hnd.1 hmem
      simp [callDirectChannelSubHal, hne, ih j hi hnd.2]

/-! ### Event relabelling -/

theorem foldl_processEvent (p : HalProxy) (i : Nat) (events : List Event) :
    ∀ acc : List Event × Nat,
      events.foldl (processEvent p i) acc =
        (acc.1 ++ events.map (fun e => { e with sensorHandle := setSubHalIndex e.sensorHandle i }),
          acc.2 +
            (events.filter (fun e =>
              ((getSensorInfo p (setSubHalIndex e.sensorHandle i)).flags &&&
                SensorFlagBits.WAKE_UP) != 0)).length) := by
  induction events with
  | nil =>
    intro acc
    simp
  | cons e rest ih =>
    intro acc
    rw [List.foldl_cons, ih]
    by_cases hw : ((getSensorInfo p (setSubHalIndex e.sensorHandle i)).flags &&&
        SensorFlagBits.WAKE_UP) = 0
    · simp [processEvent, hw]
    · simp [processEvent, hw]
      omega

/-! ### Dynamic sensors -/

theorem find?_filter_ne (m : List (Nat × SensorInfo)) (key g : Nat) (hg : ¬ g = key) :
    (m.filter (fun e => e.1 != key)).find? (fun e => e.1 == g) =
      m.find? (fun e => e.1 == g) := by
  rw [List.find?_filter]
  congr 1
  funext a
  by_cases h : a.1 = g
  · simp [h, hg]
  · simp [h]

theorem mapFind_mapAssign (m : List (Nat × SensorInfo)) (key : Nat) (value : SensorInfo)
    (g : Nat) :
    mapFind (mapAssign m key value) g = if g = key then some value else mapFind m g := by
  by_cases hg : g = key
  · subst hg
    simp [mapFind, mapAssign]
  · have hk : ¬ key = g := fun h => hg h.symm
    have hb : ((key, value).1 == g) = false := by simpa using hk
    simp only [mapFind, mapAssign, List.find?_cons, hg, if_false, hb]
    rw [find?_filter_ne m key g hg]

theorem onDynamicSensorsConnected_snoc (m : List (Nat × SensorInfo)) (l : List SensorInfo)
    (s : SensorInfo) (i : Nat) :
    onDynamicSensorsConnected m (l ++ [s]) i =
      connectSensor i (onDynamicSensorsConnected m l i) s := by
  simp [onDynamicSensorsConnected, List.foldl_append]

theorem onDynamicSensorsDisconnected_snoc (m : List (Nat × SensorInfo)) (l : List Nat)
    (h : Nat) (i : Nat) :
    onDynamicSensorsDisconnected m (l ++ [h]) i =
      disconnectSensor i (onDynamicSensorsDisconnected m l i) h := by
  simp [onDynamicSensorsDisconnected, List.foldl_append]

theorem onDynamicSensorsConnected_forwarded (m : List (Nat × SensorInfo))
    (l : List SensorInfo) (i : Nat) :
    (onDynamicSensorsConnected m l i).2 =
      (l.filter (fun s => subHalIndexIsClear s.sensorHandle)).map
        (fun s => { s with sensorHandle := setSubHalIndex s.sensorHandle i }) := by
  induction l using List.reverseRecOn with
  | nil => rfl
  | append_singleton l s ih =>
    rw [onDynamicSensorsConnected_snoc]
    by_cases hc : subHalIndexIsClear s.sensorHandle = true
    · simp [connectSensor, hc, ih, List.filter_append]
    · have hc2 : subHalIndexIsClear s.sensorHandle = false := by simpa using hc
      simp [connectSensor, hc2, ih, List.filter_append]

theorem onDynamicSensorsConnected_registry (m : List (Nat × SensorInfo))
    (l : List SensorInfo) (i : Nat) (g : Nat) :
    mapFind (onDynamicSensorsConnected m l i).1 g =
      ((onDynamicSensorsConnected m l i).2.reverse.find?
        (fun s => s.sensorHandle == g)).or (mapFind m g) := by
  induction l using List.reverseRecOn with
  | nil => simp [onDynamicSensorsConnected]
  | append_singleton l s ih =>
    rw [onDynamicSensorsConnected_snoc]
    by_cases hc : subHalIndexIsClear s.sensorHandle = true
    · simp only [connectSensor, hc, Bool.not_true, Bool.false_eq_true, if_false]
      rw [mapFind_mapAssign, List.reverse_append, List.reverse_singleton,
        List.singleton_append, List.find?_cons]
      by_cases hg : g = setSubHalIndex s.sensorHandle i
      · simp [hg]
      · have hg2 : (setSubHalIndex s.sensorHandle i == g) = false := by
          simpa using fun h => hg (Eq.symm h)
        simp only [hg, if_false, hg2]
        exact ih
    · have hc2 : subHalIndexIsClear s.sensorHandle = false := by simpa using hc
      simp only [connectSensor, hc2, Bool.not_false, if_true]
      exact ih

theorem onDynamicSensorsDisconnected_registry (m : List (Nat × SensorInfo)) (l : List Nat)
    (i : Nat) :
    (onDynamicSensorsDisconnected m l i).1 =
      m.filter (fun e => !(onDynamicSensorsDisconnected m l i).2.contains e.1) := by
  induction l using List.reverseRecOn with
  | nil => simp [onDynamicSensorsDisconnected]
  | append_singleton l h ih =>
    rw [onDynamicSensorsDisconnected_snoc]
    by_cases hc : subHalIndexIsClear h = true
    · by_cases hin : mapContains (onDynamicSensorsDisconnected m l i).1
          (setSubHalIndex h i) = true
      · simp only [disconnectSensor, hc, Bool.not_true, Bool.false_eq_true, if_false, hin,
          if_true, mapErase]
        rw [ih, List.filter_filter]
        apply List.filter_congr
        intro e _
        by_cases he : e.1 = setSubHalIndex h i
        · simp [he]
        · simp [he]
      · have hin2 : mapContains (onDynamicSensorsDisconnected m l i).1
            (setSubHalIndex h i) = false := by simpa using hin
        simp only [disconnectSensor, hc, Bool.not_true, Bool.false_eq_true, if_false, hin2]
        exact ih
    · have hc2 : subHalIndexIsClear h = false := by simpa using hc
      simp only [disconnectSensor, hc2, Bool.not_false, if_true]
      exact ih

theorem onDynamicSensorsDisconnected_forwarded (m : List (Nat × SensorInfo)) (l : List Nat)
    (i : Nat) :
    (onDynamicSensorsDisconnected m l i).2 =
      (List.range l.length).filterMap (disconnectForwardedAt m l i) := by
  induction l using List.reverseRecOn with
  | nil => simp [onDynamicSensorsDisconnected]
  | append_singleton l h ih =>
    have hold : (List.range l.length).filterMap (disconnectForwardedAt m (l ++ [h]) i) =
        (List.range l.length).filterMap (disconnectForwardedAt m l i) := by
      apply List.filterMap_congr
      intro k hk
      have hk2 : k < l.length := List.mem_range.mp hk
      simp only [disconnectForwardedAt, List.getElem?_append_left hk2,
        List.take_append_of_le_length (Nat.le_of_lt hk2)]
    have hlast : disconnectForwardedAt m (l ++ [h]) i l.length =
        if subHalIndexIsClear h &&
            mapContains (onDynamicSensorsDisconnected m l i).1 (setSubHalIndex h i) then
          some (setSubHalIndex h i)
        else none := by
      simp only [disconnectForwardedAt, List.getElem?_append_right (Nat.le_refl _),
        Nat.sub_self, List.getElem?_cons_zero, List.take_left]
    rw [onDynamicSensorsDisconnected_snoc, List.length_append, List.length_singleton,
      List.range_succ, List.filterMap_append, hold, ← ih]
    simp only [List.filterMap_cons, List.filterMap_nil, hlast]
    by_cases hc : subHalIndexIsClear h = true
    · by_cases hin : mapContains (onDynamicSensorsDisconnected m l i).1
          (setSubHalIndex h i) = true
      · simp [disconnectSensor, hc, hin]
      · have hin2 : mapContains (onDynamicSensorsDisconnected m l i).1
            (setSubHalIndex h i) = false := by simpa using hin
        simp [disconnectSensor, hc, hin2]
    · have hc2 : subHalIndexIsClear h = false := by simpa using hc
      simp [disconnectSensor, hc2]

/-! ### Designation of the direct-channel sub-HAL -/

theorem loadSensor_direct_some (subHalIndex : Nat) (subHal : ISensorsSubHal) (p : HalProxy)
    (sensor : SensorInfo) (a : Nat) (hd : p.mDirectChannelSubHal = some a) :
    (loadSensor subHalIndex subHal p sensor).mDirectChannelSubHal = some a := by
  by_cases hc : subHalIndexIsClear sensor.sensorHandle = true
  · rw [loadSensor_clear _ _ _ _ hc]
    simp [hd]
  · have hc2 : subHalIndexIsClear sensor.sensorHandle = false := by simpa using hc
    simp [loadSensor, hc2, hd]

theorem foldl_loadSensor_direct_some (subHalIndex : Nat) (subHal : ISensorsSubHal) (a : Nat)
    (sensors : List SensorInfo) :
    ∀ p : HalProxy, p.mDirectChannelSubHal = some a →
      (sensors.foldl (loadSensor subHalIndex subHal) p).mDirectChannelSubHal = some a := by
  induction sensors with
  | nil =>
    intro p hd
    exact hd
  | cons s rest ih =>
    intro p hd
    exact ih _ (loadSensor_direct_some subHalIndex subHal p s a hd)

theorem initializeSensorListFrom_direct_some (a : Nat) (subHals : List ISensorsSubHal) :
    ∀ (subHalIndex : Nat) (p : HalProxy), p.mDirectChannelSubHal = some a →
      (initializeSensorListFrom subHalIndex subHals p).mDirectChannelSubHal = some a := by
  induction subHals with
  | nil =>
    intro subHalIndex p hd
    simpa [initializeSensorListFrom] using hd
  | cons b rest ih =>
    intro subHalIndex p hd
    simp only [initializeSensorListFrom]
    exact ih _ _ (foldl_loadSensor_direct_some subHalIndex b a b.sensorsList p hd)

theorem foldl_loadSensor_direct (subHalIndex : Nat) (subHal : ISensorsSubHal)
    (sensors : List SensorInfo) :
    ∀ p : HalProxy, p.mDirectChannelSubHal = none →
      (sensors.foldl (loadSensor subHalIndex subHal) p).mDirectChannelSubHal =
        if sensors.any (fun s =>
            subHalIndexIsClear s.sensorHandle &&
              (s.flags &&&
                (SensorFlagBits.MASK_DIRECT_REPORT |||
                  SensorFlagBits.MASK_DIRECT_CHANNEL)) != 0) then
          some subHal.addr
        else none := by
  induction sensors with
  | nil =>
    intro p hd
    simpa using hd
  | cons s rest ih =>
    intro p hd
    rw [List.foldl_cons]
    by_cases hc : subHalIndexIsClear s.sensorHandle = true
    · by_cases hz : s.flags &&&
          (SensorFlagBits.MASK_DIRECT_REPORT ||| SensorFlagBits.MASK_DIRECT_CHANNEL) = 0
      · have hnone : (loadSensor subHalIndex subHal p s).mDirectChannelSubHal = none := by
          rw [loadSensor_clear _ _ _ _ hc]
          simp [hd, hz]
        rw [ih _ hnone]
        simp [hc, hz]
      · have hsome : (loadSensor subHalIndex subHal p s).mDirectChannelSubHal =
            some subHal.addr := by
          rw [loadSensor_clear _ _ _ _ hc]
          simp [hd, hz]
        rw [foldl_loadSensor_direct_some subHalIndex subHal subHal.addr rest _ hsome]
        simp [hc, hz]
    · have hc2 : subHalIndexIsClear s.sensorHandle = false := by simpa using hc
      have hnone : (loadSensor subHalIndex subHal p s).mDirectChannelSubHal = none := by
        simp [loadSensor, hc2, hd]
      rw [ih _ hnone]
      simp [hc2]

theorem initializeSensorListFrom_direct_none (subHals : List ISensorsSubHal)
    (hno : ∀ b ∈ subHals, reportsDirectChannel b = false) :
    ∀ (subHalIndex : Nat) (p : HalProxy), p.mDirectChannelSubHal = none →
      (initializeSensorListFrom subHalIndex subHals p).mDirectChannelSubHal = none := by
  induction subHals with
  | nil =>
    intro subHalIndex p hd
    simpa [initializeSensorListFrom] using hd
  | cons b rest ih =>
    intro subHalIndex p hd
    simp only [initializeSensorListFrom]
    apply ih (fun c hc => hno c (List.mem_cons_of_mem _ hc))
    rw [foldl_loadSensor_direct subHalIndex b b.sensorsList p hd]
    have hb := hno b (List.mem_cons_self _ _)
    unfold reportsDirectChannel at hb
    rw [hb]
    rfl

theorem initializeSensorListFrom_direct_first (pre : List ISensorsSubHal)
    (subHal : ISensorsSubHal) (post : List ISensorsSubHal)
    (hpre : ∀ b ∈ pre, reportsDirectChannel b = false)
    (hsub : reportsDirectChannel subHal = true) :
    ∀ (subHalIndex : Nat) (p : HalProxy), p.mDirectChannelSubHal = none →
      (initializeSensorListFrom subHalIndex (pre ++ subHal :: post) p).mDirectChannelSubHal =
        some subHal.addr := by
  induction pre with
  | nil =>
    intro subHalIndex p hd
    simp only [List.nil_append, initializeSensorListFrom]
    apply initializeSensorListFrom_direct_some
    rw [foldl_loadSensor_direct subHalIndex subHal subHal.sensorsList p hd]
    unfold reportsDirectChannel at hsub
    rw [hsub]
    rfl
  | cons b rest ih =>
    intro subHalIndex p hd
    simp only [List.cons_append, initializeSensorListFrom]
    apply ih (fun c hc => hpre c (List.mem_cons_of_mem _ hc))
    rw [foldl_loadSensor_direct subHalIndex b b.sensorsList p hd]
    have hb := hpre b (List.mem_cons_self _ _)
    unfold reportsDirectChannel at hb
    rw [hb]
    rfl

/-! ### Drain iterations -/

theorem handlePendingWritesIteration_cons (w : Writer) (c : Nat) (ok : Bool)
    (pendingWriteEvents : List Event) (rest : List (List Event))
    (hq : w.mPendingWriteEventsQueue = pendingWriteEvents :: rest) :
    handlePendingWritesIteration w c ok =
      { mPendingWriteEventsQueue :=
          if pendingWriteEvents.length > c then pendingWriteEvents.drop c :: rest else rest
        queueOps :=
          w.queueOps ++
            (if ok then
              [QueueOp.writeBlocking (pendingWriteEvents.take (min pendingWriteEvents.length c))
                true, QueueOp.wake]
            else
              [QueueOp.writeBlocking (pendingWriteEvents.take (min pendingWriteEvents.length c))
                false]) } := by
  simp [handlePendingWritesIteration, pendingWriteBegin, pendingWriteEnd, hq]

theorem handlePendingWritesIteration_nil (w : Writer) (c : Nat) (ok : Bool)
    (hq : w.mPendingWriteEventsQueue = []) : handlePendingWritesIteration w c ok = w := by
  simp [handlePendingWritesIteration, pendingWriteBegin, hq]

theorem postEventsToMessageQueue_nonempty (w : Writer) (events : List Event) (r : Nat)
    (ok : Bool) (hne : ∀ b ∈ w.mPendingWriteEventsQueue, b ≠ []) :
    ∀ b ∈ (postEventsToMessageQueue w events r ok).mPendingWriteEventsQueue, b ≠ [] := by
  intro b hb
  unfold postEventsToMessageQueue at hb
  by_cases hlt : (postEventsWrite w events r ok).1 < events.length
  · rw [if_pos hlt] at hb
    simp only [List.mem_append, List.mem_singleton] at hb
    rcases hb with hb | hb
    · exact hne b hb
    · rw [hb]
      intro hnil
      have hlen := congrArg List.length hnil
      simp only [List.length_drop, List.length_nil] at hlen
      omega
  · rw [if_neg hlt] at hb
    exact hne b hb

theorem pendingWriteEnd_nonempty (w : Writer) (n c : Nat) (ok : Bool)
    (hne : ∀ b ∈ w.mPendingWriteEventsQueue, b ≠ []) :
    ∀ b ∈ (pendingWriteEnd w n c ok).mPendingWriteEventsQueue, b ≠ [] := by
  intro b hb
  unfold pendingWriteEnd at hb
  cases hq : w.mPendingWriteEventsQueue with
  | nil =>
    rw [hq] at hb
    simp only at hb
    rw [hq] at hb
    cases hb
  | cons hd rest =>
    rw [hq] at hb hne
    simp only at hb
    by_cases hgt : hd.length > c
    · rw [if_pos hgt] at hb
      rcases List.mem_cons.mp hb with hb | hb
      · rw [hb]
        intro hnil
        have hlen := congrArg List.length hnil
        simp only [List.length_drop, List.length_nil] at hlen
        omega
      · exact hne b (List.mem_cons_of_mem _ hb)
    · rw [if_neg hgt] at hb
      exact hne b (List.mem_cons_of_mem _ hb)

theorem handlePendingWritesIteration_nonempty (w : Writer) (c : Nat) (ok : Bool)
    (hne : ∀ b ∈ w.mPendingWriteEventsQueue, b ≠ []) :
    ∀ b ∈ (handlePendingWritesIteration w c ok).mPendingWriteEventsQueue, b ≠ [] := by
  unfold handlePendingWritesIteration
  cases hb : pendingWriteBegin w c with
  | none => exact hne
  | some v => exact pendingWriteEnd_nonempty w v.1 v.2 ok hne

theorem writerStep_nonempty (s : WriterSystem) (st : WriterStep)
    (hne : ∀ b ∈ s.writer.mPendingWriteEventsQueue, b ≠ []) :
    ∀ b ∈ (s.step st).writer.mPendingWriteEventsQueue, b ≠ [] := by
  cases st with
  | post events r ok =>
    exact postEventsToMessageQueue_nonempty s.writer events r ok hne
  | iteration c ok =>
    cases hin : s.inFlight with
    | some v =>
      simp only [WriterSystem.step, hin]
      exact hne
    | none =>
      simp only [WriterSystem.step, hin]
      exact handlePendingWritesIteration_nonempty s.writer c ok hne
  | drainBegin c =>
    cases hin : s.inFlight with
    | some v =>
      simp only [WriterSystem.step, hin]
      exact hne
    | none =>
      simp only [WriterSystem.step, hin]
      exact hne
  | drainEnd ok =>
    cases hin : s.inFlight with
    | none =>
      simp only [WriterSystem.step, hin]
      exact hne
    | some v =>
      simp only [WriterSystem.step, hin]
      exact pendingWriteEnd_nonempty s.writer v.1 v.2 ok hne

theorem writerRun_nonempty (steps : List WriterStep) :
    ∀ s : WriterSystem, (∀ b ∈ s.writer.mPendingWriteEventsQueue, b ≠ []) →
      ∀ b ∈ (steps.foldl WriterSystem.step s).writer.mPendingWriteEventsQueue, b ≠ [] := by
  induction steps with
  | nil =>
    intro s hne
    exact hne
  | cons st tl ih =>
    intro s hne
    exact ih (s.step st) (writerStep_nonempty s st hne)

theorem handlePendingWritesIteration_decreases (w : Writer) (c : Nat) (ok : Bool)
    (hne : ∀ b ∈ w.mPendingWriteEventsQueue, b ≠ []) (hc : 1 ≤ c)
    (hq : w.mPendingWriteEventsQueue ≠ []) :
    (handlePendingWritesIteration w c ok).mPendingWriteEventsQueue.flatten.length <
      w.mPendingWriteEventsQueue.flatten.length := by
  cases hw : w.mPendingWriteEventsQueue with
  | nil => exact absurd hw hq
  | cons hd rest =>
    have hhd : hd ≠ [] := hne hd (by rw [hw]; exact List.mem_cons_self _ _)
    have hpos : 0 < hd.length := List.length_pos.mpr hhd
    rw [handlePendingWritesIteration_cons w c ok hd rest hw]
    by_cases hgt : hd.length > c
    · simp only [if_pos hgt, List.flatten_cons, List.length_append, List.length_drop]
      omega
    · simp only [if_neg hgt, List.flatten_cons, List.length_append]
      omega

theorem drainRun_empties (runs : List (Nat × Bool)) (hc : ∀ r ∈ runs, 1 ≤ r.1) :
    ∀ w : Writer, (∀ b ∈ w.mPendingWriteEventsQueue, b ≠ []) →
      w.mPendingWriteEventsQueue.flatten.length ≤ runs.length →
      (runs.foldl (fun v r => handlePendingWritesIteration v r.1 r.2)
        w).mPendingWriteEventsQueue = [] := by
  induction runs with
  | nil =>
    intro w hne hlen
    cases hw : w.mPendingWriteEventsQueue with
    | nil => simpa using hw
    | cons hd rest =>
      have hhd : hd ≠ [] := hne hd (by rw [hw]; exact List.mem_cons_self _ _)
      have hpos : 0 < hd.length := List.length_pos.mpr hhd
      rw [hw] at hlen
      simp only [List.flatten_cons, List.length_append, List.length_nil] at hlen
      omega
  | cons r tl ih =>
    intro w hne hlen
    rw [List.foldl_cons]
    apply ih (fun x hx => hc x (List.mem_cons_of_mem _ hx))
    · exact handlePendingWritesIteration_nonempty w r.1 r.2 hne
    · by_cases hq : w.mPendingWriteEventsQueue = []
      · rw [handlePendingWritesIteration_nil w r.1 r.2 hq, hq]
        simp
      · have hdec := handlePendingWritesIteration_decreases w r.1 r.2 hne
          (hc r (List.mem_cons_self _ _)) hq
        simp only [List.length_cons] at hlen
        omega

/-! ## Properties -/

/-- C1: for every 32-bit local handle `h` whose top byte is zero and every sub-HAL index
`i` with `i ≤ 255`, clearing the index of the encoded handle gives `h` back, and the index
read by `getSubHalForSensorHandle` (`handle >> 24`) from the encoded handle is `i`. -/
theorem C1_codec_roundtrip (h i : Nat) (hh : h < 2 ^ 32)
    (hc : subHalIndexIsClear h = true) (hi : i ≤ 255) :
    clearSubHalIndex (setSubHalIndex h i) = h ∧ setSubHalIndex h i >>> 24 = i :=
  setSubHalIndex_roundtrip h i hh hc hi

theorem C1_codec_roundtrip_witness :
    (5 < 2 ^ 32 ∧ subHalIndexIsClear 5 = true ∧ 1 ≤ 255) ∧
      clearSubHalIndex (setSubHalIndex 5 1) = 5 ∧ setSubHalIndex 5 1 >>> 24 = 1 :=
  ⟨by decide, C1_codec_roundtrip 5 1 (by decide) (by decide) (by decide)⟩

/-- C2 (amended): `setOperationMode` with rollback.  When the sub-HAL at index `k` is the
first whose `setOperationMode(mode)` is not answered `OK` (the calls through the indices
`0..k-1` are answered `OK`, the one through `k` is not), the recorded mode is unchanged,
the rollback calls `setOperationMode(recorded mode)` are made through the indices
`0..k-1`, and every one of these sub-HALs whose rollback call is answered `OK` ends in the
recorded mode (the answer of a rollback call is discarded by the code, so nothing is said
of a sub-HAL that refuses it).  When no sub-HAL refuses, the call returns `OK` and the
recorded mode is the requested one. -/
theorem C2_setOperationMode_rollback (p : HalProxy) (mode : OperationMode) :
    (∀ (k : Nat) (r : Result) (later : List Result),
        modeAnswers mode p.mSubHalList.length 0 p.mSubHalList =
          List.replicate k Result.OK ++ r :: later →
        r ≠ Result.OK →
        (setOperationMode p mode).2.mCurrentOperationMode = p.mCurrentOperationMode ∧
        (setOperationModeResetCalls p mode).map (fun t => (t.1, t.2.1)) =
          (List.range k).map
            (fun i => (i, SubHalCall.setOperationMode p.mCurrentOperationMode)) ∧
        ∀ (i : Nat) (b : ISensorsSubHal),
          (i, SubHalCall.setOperationMode p.mCurrentOperationMode, Result.OK) ∈
            setOperationModeResetCalls p mode →
          (setOperationMode p mode).2.mSubHalList[i]? = some b →
          b.modeOf = some p.mCurrentOperationMode) ∧
    ((∀ r ∈ modeAnswers mode p.mSubHalList.length 0 p.mSubHalList, r = Result.OK) →
      (setOperationMode p mode).1 = Result.OK ∧
      (setOperationMode p mode).2.mCurrentOperationMode = mode) := by
  constructor
  · intro k r later hfirst hr
    obtain ⟨h1, h2, _, h4, h5⟩ :=
      setOperationModeApply_fail mode r later hr k p.mSubHalList.length 0 p.mSubHalList hfirst
    have hne : ((setOperationModeApply mode p.mSubHalList.length 0 p.mSubHalList).result
        != Result.OK) = true := by
      rw [h1]
      simpa using hr
    refine ⟨?_, ?_, ?_⟩
    · simp only [setOperationMode, hne, if_true]
    · simp only [setOperationModeResetCalls, hne, if_true]
      rw [h2, Nat.zero_add, setOperationModeReset_calls _ _ _ _ (by rw [h4]; omega),
        List.range_eq_range']
    · intro i b hmem hb
      simp only [setOperationModeResetCalls, hne, if_true] at hmem
      simp only [setOperationMode, hne, if_true] at hb
      exact setOperationModeReset_modeOf _ _ _ _ i b hmem hb
  · intro hok
    have hres := setOperationModeApply_ok mode p.mSubHalList.length 0 p.mSubHalList hok
    simp [setOperationMode, hres]

theorem C2_setOperationMode_rollback_witness :
    (modeAnswers OperationMode.DATA_INJECTION 2 0 [steadySubHal 1 [], refusingSubHal 2 []] =
        List.replicate 1 Result.OK ++ Result.BAD_VALUE :: [] ∧
      (setOperationMode (HalProxy.create [steadySubHal 1 [], refusingSubHal 2 []])
        OperationMode.DATA_INJECTION).2.mCurrentOperationMode = OperationMode.NORMAL ∧
      ∀ b1 : ISensorsSubHal,
        (setOperationMode (HalProxy.create [steadySubHal 1 [], refusingSubHal 2 []])
          OperationMode.DATA_INJECTION).2.mSubHalList[0]? = some b1 →
        b1.modeOf = some OperationMode.NORMAL) ∧
    ((setOperationMode (HalProxy.create [steadySubHal 1 [], steadySubHal 2 []])
        OperationMode.DATA_INJECTION).1 = Result.OK ∧
      (setOperationMode (HalProxy.create [steadySubHal 1 [], steadySubHal 2 []])
        OperationMode.DATA_INJECTION).2.mCurrentOperationMode =
          OperationMode.DATA_INJECTION) := by
  constructor
  · have h := (C2_setOperationMode_rollback
      (HalProxy.create [steadySubHal 1 [], refusingSubHal 2 []])
      OperationMode.DATA_INJECTION).1 1 Result.BAD_VALUE [] rfl (by decide)
    exact ⟨rfl, h.1, fun b1 hb1 => h.2.2 0 b1 (by decide) hb1⟩
  · exact (C2_setOperationMode_rollback
      (HalProxy.create [steadySubHal 1 [], steadySubHal 2 []])
      OperationMode.DATA_INJECTION).2 (by decide)

/-- C2 as stated fails: sub-HAL 0 accepts `DATA_INJECTION` and then refuses the rollback,
sub-HAL 1 refuses `DATA_INJECTION` and so is the first to fail; after the call the recorded
mode is still `NORMAL` while sub-HAL 0 is in `DATA_INJECTION`. -/
theorem C2_rollback_refused_counterexample :
    modeAnswers OperationMode.DATA_INJECTION 2 0 [brittleSubHal 1 [], refusingSubHal 2 []] =
      [Result.OK, Result.BAD_VALUE] ∧
    (HalProxy.create [brittleSubHal 1 [], refusingSubHal 2 []]).mCurrentOperationMode =
      OperationMode.NORMAL ∧
    (setOperationMode (HalProxy.create [brittleSubHal 1 [], refusingSubHal 2 []])
        OperationMode.DATA_INJECTION).1 = Result.BAD_VALUE ∧
    (setOperationMode (HalProxy.create [brittleSubHal 1 [], refusingSubHal 2 []])
        OperationMode.DATA_INJECTION).2.mCurrentOperationMode = OperationMode.NORMAL ∧
    setOperationModeCalls (HalProxy.create [brittleSubHal 1 [], refusingSubHal 2 []])
        OperationMode.DATA_INJECTION =
      [(0, SubHalCall.setOperationMode OperationMode.DATA_INJECTION, Result.OK),
        (1, SubHalCall.setOperationMode OperationMode.DATA_INJECTION, Result.BAD_VALUE),
        (0, SubHalCall.setOperationMode OperationMode.NORMAL, Result.NO_MEMORY)] ∧
    (setOperationMode (HalProxy.create [brittleSubHal 1 [], refusingSubHal 2 []])
        OperationMode.DATA_INJECTION).2.mSubHalList.map ISensorsSubHal.modeOf =
      [some OperationMode.DATA_INJECTION, none] := by
  decide

/-- C3: while the recorded operation mode is `NORMAL`, `injectSensorData` of an event
whose type is not `ADDITIONAL_INFO` returns `BAD_VALUE` and leaves every sub-HAL's call
log as it was (no sub-HAL is called). -/
theorem C3_injectSensorData_gate (p : HalProxy) (event : Event)
    (hmode : p.mCurrentOperationMode = OperationMode.NORMAL)
    (htype : event.sensorType ≠ SensorType.ADDITIONAL_INFO) :
    injectSensorData p event = some (Result.BAD_VALUE, p) := by
  simp [injectSensorData, injectSensorDataGate, hmode, htype]

theorem C3_injectSensorData_gate_witness :
    injectSensorData (HalProxy.create [steadySubHal 1 []]) (eventWith 5 1) =
      some (Result.BAD_VALUE, HalProxy.create [steadySubHal 1 []]) :=
  C3_injectSensorData_gate (HalProxy.create [steadySubHal 1 []]) (eventWith 5 1) rfl
    (by decide)

/-- C4: after `initializeSensorList` over at most 255 sub-HALs (reporting 32-bit handles),
every registry entry with key `g` has a sub-HAL index `g >> 24` below the number of
sub-HALs, and the sub-HAL at that index reported a sensor whose handle has a zero top byte
and equals `clearSubHalIndex g`; a reported sensor whose handle has a non-zero top byte
leaves the proxy, hence the registry, untouched. -/
theorem C4_registry_entries_reported (subHals : List ISensorsSubHal)
    (hN : subHals.length ≤ 255)
    (hwf : ∀ b ∈ subHals, ∀ s ∈ b.sensorsList, s.sensorHandle < 2 ^ 32) :
    (∀ g s, (g, s) ∈ (initializeSensorList (HalProxy.create subHals)).mSensors →
      g >>> 24 < subHals.length ∧
      ∃ subHal s0, subHals[g >>> 24]? = some subHal ∧ s0 ∈ subHal.sensorsList ∧
        subHalIndexIsClear s0.sensorHandle = true ∧
        s0.sensorHandle = clearSubHalIndex g) ∧
    (∀ (subHalIndex : Nat) (subHal : ISensorsSubHal) (p : HalProxy) (sensor : SensorInfo),
      subHalIndexIsClear sensor.sensorHandle = false →
      loadSensor subHalIndex subHal p sensor = p) := by
  constructor
  · intro g s hgs
    obtain ⟨i, b, s0, ⟨hidx, hmem, hclear, hg, _⟩, _⟩ :=
      initializeSensorList_inv subHals g s hgs
    have hi : i < subHals.length := by
      obtain ⟨h, _⟩ := List.getElem?_eq_some.mp hidx
      exact h
    have hrt := setSubHalIndex_roundtrip s0.sensorHandle i
      (hwf b (List.getElem?_mem hidx) s0 hmem) hclear (by omega)
    subst hg
    rw [hrt.2]
    exact ⟨hi, b, s0, hidx, hmem, hclear, hrt.1.symm⟩
  · intro subHalIndex subHal p sensor hc
    simp [loadSensor, hc]

theorem C4_registry_entries_reported_witness :
    ([steadySubHal 1 [sensorWith 5 0],
        steadySubHal 2 [sensorWith 5 0, sensorWith 0x02000007 0]].length ≤ 255 ∧
      ∀ b ∈ [steadySubHal 1 [sensorWith 5 0],
          steadySubHal 2 [sensorWith 5 0, sensorWith 0x02000007 0]],
        ∀ s ∈ b.sensorsList, s.sensorHandle < 2 ^ 32) ∧
    0x01000005 >>> 24 <
      [steadySubHal 1 [sensorWith 5 0],
        steadySubHal 2 [sensorWith 5 0, sensorWith 0x02000007 0]].length := by
  have hwf : ∀ b ∈ [steadySubHal 1 [sensorWith 5 0],
      steadySubHal 2 [sensorWith 5 0, sensorWith 0x02000007 0]],
      ∀ s ∈ b.sensorsList, s.sensorHandle < 2 ^ 32 := by
    simp [steadySubHal, sensorWith]
  exact ⟨⟨by decide, hwf⟩,
    ((C4_registry_entries_reported _ (by decide) hwf).1 0x01000005
      { sensorWith 5 0 with sensorHandle := 0x01000005 } (by decide)).1⟩

/-- C5: sensors of different sub-HALs never collide in the registry: for sub-HAL indices
`i ≠ j`, both at most 255, and 32-bit local handles with a zero top byte, the encoded
handles differ; with two sub-HALs each reporting local handle 5, the registry built by
`initializeSensorList` has exactly the keys `0x01000005` and `0x00000005` (the association
list shows the latest insertion first). -/
theorem C5_no_collision :
    (∀ h1 h2 i j : Nat, h1 < 2 ^ 32 → h2 < 2 ^ 32 → subHalIndexIsClear h1 = true →
      subHalIndexIsClear h2 = true → i ≤ 255 → j ≤ 255 → i ≠ j →
      setSubHalIndex h1 i ≠ setSubHalIndex h2 j) ∧
    (initializeSensorList
        (HalProxy.create
          [steadySubHal 1 [sensorWith 5 0], steadySubHal 2 [sensorWith 5 0]])).mSensors.map
      Prod.fst = [0x01000005, 0x00000005] := by
  constructor
  · intro h1 h2 i j hh1 hh2 hc1 hc2 hi hj hij heq
    have e1 := (setSubHalIndex_roundtrip h1 i hh1 hc1 hi).2
    have e2 := (setSubHalIndex_roundtrip h2 j hh2 hc2 hj).2
    rw [heq, e2] at e1
    exact hij e1.symm
  · decide

theorem C5_no_collision_witness :
    (5 < 2 ^ 32 ∧ subHalIndexIsClear 5 = true ∧ 0 ≤ 255 ∧ 1 ≤ 255 ∧ 0 ≠ 1) ∧
      setSubHalIndex 5 0 ≠ setSubHalIndex 5 1 :=
  ⟨by decide,
    C5_no_collision.1 5 5 0 1 (by decide) (by decide) (by decide) (by decide) (by decide)
      (by decide) (by decide)⟩

/-- C6: after registry construction over sub-HALs with pairwise distinct identities
(reporting 32-bit flag words), at most one sub-HAL is the designated direct-channel sub-HAL,
and every registry entry stems from a sensor reported by some sub-HAL such that, when that
sub-HAL is not the designated one, the entry's `MASK_DIRECT_REPORT` and
`MASK_DIRECT_CHANNEL` bits are cleared and every other flag bit is as reported; that
sub-HAL is the one named by the key's top byte whenever its index is at most 255 and the
reported handle is a 32-bit value. -/
theorem C6_direct_channel_arbitration (subHals : List ISensorsSubHal)
    (hdistinct : (subHals.map ISensorsSubHal.addr).Nodup)
    (hwf : ∀ b ∈ subHals, ∀ s ∈ b.sensorsList, s.flags < 2 ^ 32) :
    (∀ (i j : Nat) (bi bj : ISensorsSubHal), subHals[i]? = some bi → subHals[j]? = some bj →
      (initializeSensorList (HalProxy.create subHals)).mDirectChannelSubHal = some bi.addr →
      (initializeSensorList (HalProxy.create subHals)).mDirectChannelSubHal = some bj.addr →
      i = j) ∧
    (∀ g s, (g, s) ∈ (initializeSensorList (HalProxy.create subHals)).mSensors →
      ∃ i subHal s0, StemsFrom subHals g s i subHal s0 ∧
        ((initializeSensorList (HalProxy.create subHals)).mDirectChannelSubHal ≠
            some subHal.addr →
          DirectFlagsCleared s.flags s0.flags) ∧
        (i ≤ 255 → s0.sensorHandle < 2 ^ 32 → g >>> 24 = i)) := by
  constructor
  · intro i j bi bj hi hj hdi hdj
    have haddr : bi.addr = bj.addr := by
      rw [hdi] at hdj
      exact Option.some.inj hdj
    have hi2 : i < (subHals.map ISensorsSubHal.addr).length := by
      obtain ⟨h, _⟩ := List.getElem?_eq_some.mp hi
      simpa using h
    apply List.getElem?_inj hi2 hdistinct
    rw [List.getElem?_map, List.getElem?_map, hi, hj]
    simp [haddr]
  · intro g s hgs
    obtain ⟨i, b, s0, hst, _, h2, _⟩ := initializeSensorList_inv subHals g s hgs
    refine ⟨i, b, s0, hst, ?_, ?_⟩
    · intro hne
      rcases h2 hne with hmask | ⟨hsame, hzero⟩
      · rw [hmask]
        exact directFlagsCleared_masked (hwf b (List.getElem?_mem hst.1) s0 hst.2.1)
      · rw [hsame]
        exact directFlagsCleared_self hzero
    · intro hi hh
      rw [hst.2.2.2.1]
      exact (setSubHalIndex_roundtrip s0.sensorHandle i hh hst.2.2.1 hi).2

theorem C6_direct_channel_arbitration_witness :
    (([steadySubHal 1 [sensorWith 5 0x80], steadySubHal 2 [sensorWith 5 0x480]].map
          ISensorsSubHal.addr).Nodup ∧
      ∀ b ∈ [steadySubHal 1 [sensorWith 5 0x80], steadySubHal 2 [sensorWith 5 0x480]],
        ∀ s ∈ b.sensorsList, s.flags < 2 ^ 32) ∧
    ∃ i subHal s0,
      StemsFrom [steadySubHal 1 [sensorWith 5 0x80], steadySubHal 2 [sensorWith 5 0x480]]
        0x01000005 { sensorWith 5 0 with sensorHandle := 0x01000005 } i subHal s0 ∧
      ((initializeSensorList
          (HalProxy.create
            [steadySubHal 1 [sensorWith 5 0x80],
              steadySubHal 2 [sensorWith 5 0x480]])).mDirectChannelSubHal ≠
          some subHal.addr →
        DirectFlagsCleared (sensorWith 5 0).flags s0.flags) ∧
      (i ≤ 255 → s0.sensorHandle < 2 ^ 32 → 0x01000005 >>> 24 = i) := by
  have hwf : ∀ b ∈ [steadySubHal 1 [sensorWith 5 0x80], steadySubHal 2 [sensorWith 5 0x480]],
      ∀ s ∈ b.sensorsList, s.flags < 2 ^ 32 := by
    simp [steadySubHal, sensorWith]
  exact ⟨⟨by decide, hwf⟩,
    (C6_direct_channel_arbitration _ (by decide) hwf).2 0x01000005
      { sensorWith 5 0 with sensorHandle := 0x01000005 } (by decide)⟩

/-- C7: batches reach the output channel in submission order.  After any sequence of
steps from the start (calls of `postEventsToMessageQueue`, whole drain iterations, and
drain iterations split at the unlock with other steps in between), the events handed to the
channel so far (written, or attempted by the drain and dropped), followed by the flattened
backlog, are the concatenation of the submitted batches in the order of their calls, the
order inside each batch kept. -/
theorem C7_delivery_order (steps : List WriterStep) :
    handedEvents (steps.foldl WriterSystem.step WriterSystem.start).writer.queueOps ++
        (steps.foldl WriterSystem.step
          WriterSystem.start).writer.mPendingWriteEventsQueue.flatten =
      (submittedBatches steps).flatten := by
  have hstart : WriterInv WriterSystem.start [] := by
    constructor
    · simp [WriterSystem.start, handedEvents]
    · intro n c h
      simp [WriterSystem.start] at h
  have h := (writerRun_inv steps WriterSystem.start [] hstart).1
  simpa using h

/-- C8 (amended): one call of `postEventsToMessageQueue` with a batch of `n` events.  On
an empty backlog with room for `r` events and a succeeding write, exactly the first
`min n r` events are written and the remaining ones, if any, become the only backlog batch.
When the backlog is non-empty, `r` is 0, or the write fails, nothing is written and the
batch, if it is not empty, is appended as one new batch at the backlog tail; an empty batch
leaves the backlog as it was.  With `r = 3` and five events on an empty backlog, the first
three are written (and the reader woken) and the backlog is one batch of the last two. -/
theorem C8_postEvents_split (w : Writer) (events : List Event) (r : Nat) (ok : Bool) :
    (w.mPendingWriteEventsQueue = [] → ok = true →
      writtenEvents (postEventsToMessageQueue w events r ok).queueOps =
          writtenEvents w.queueOps ++ events.take (min events.length r) ∧
        (postEventsToMessageQueue w events r ok).mPendingWriteEventsQueue =
          if min events.length r < events.length then [events.drop (min events.length r)]
          else []) ∧
    ((w.mPendingWriteEventsQueue ≠ [] ∨ r = 0 ∨ ok = false) →
      writtenEvents (postEventsToMessageQueue w events r ok).queueOps =
          writtenEvents w.queueOps ∧
        (postEventsToMessageQueue w events r ok).mPendingWriteEventsQueue =
          if 0 < events.length then w.mPendingWriteEventsQueue ++ [events]
          else w.mPendingWriteEventsQueue) ∧
    (∀ a b c d e : Event,
      postEventsToMessageQueue { mPendingWriteEventsQueue := [], queueOps := [] }
          [a, b, c, d, e] 3 true =
        { mPendingWriteEventsQueue := [[d, e]]
          queueOps := [QueueOp.write [a, b, c] true, QueueOp.wake] }) := by
  refine ⟨?_, ?_, ?_⟩
  · intro hq hok
    subst hok
    rw [postEventsToMessageQueue_empty_ok w events r hq]
    refine ⟨?_, rfl⟩
    dsimp only
    by_cases hpos : 0 < min events.length r
    · rw [if_pos hpos, writtenEvents_append]
      simp [writtenEvents]
    · have hzero : min events.length r = 0 := by omega
      rw [if_neg hpos, writtenEvents_append, hzero]
      simp [writtenEvents]
  · intro hcase
    rw [postEventsToMessageQueue_kept w events r ok hcase]
    refine ⟨?_, rfl⟩
    dsimp only
    by_cases hw : w.mPendingWriteEventsQueue = [] ∧ 0 < min events.length r
    · rw [if_pos hw, writtenEvents_append]
      simp [writtenEvents]
    · rw [if_neg hw, writtenEvents_append]
      simp [writtenEvents]
  · intro a b c d e
    simp [postEventsToMessageQueue, postEventsWrite]

theorem C8_postEvents_split_witness :
    ((({ mPendingWriteEventsQueue := [], queueOps := [] } : Writer).mPendingWriteEventsQueue =
        [] ∧ true = true) ∧
      (postEventsToMessageQueue { mPendingWriteEventsQueue := [], queueOps := [] }
          [eventWith 1 1, eventWith 2 1, eventWith 3 1] 2 true).mPendingWriteEventsQueue =
        if min [eventWith 1 1, eventWith 2 1, eventWith 3 1].length 2 <
            [eventWith 1 1, eventWith 2 1, eventWith 3 1].length then
          [[eventWith 1 1, eventWith 2 1, eventWith 3 1].drop
            (min [eventWith 1 1, eventWith 2 1, eventWith 3 1].length 2)]
        else []) ∧
    (((({ mPendingWriteEventsQueue := [[eventWith 9 1]], queueOps := [] } :
          Writer).mPendingWriteEventsQueue ≠ []) ∨ 2 = 0 ∨ true = false) ∧
      (postEventsToMessageQueue
          { mPendingWriteEventsQueue := [[eventWith 9 1]], queueOps := [] }
          [eventWith 1 1] 2 true).mPendingWriteEventsQueue =
        if 0 < [eventWith 1 1].length then
          ({ mPendingWriteEventsQueue := [[eventWith 9 1]], queueOps := [] } :
            Writer).mPendingWriteEventsQueue ++ [[eventWith 1 1]]
        else
          ({ mPendingWriteEventsQueue := [[eventWith 9 1]], queueOps := [] } :
            Writer).mPendingWriteEventsQueue) :=
  ⟨⟨⟨rfl, rfl⟩,
      ((C8_postEvents_split { mPendingWriteEventsQueue := [], queueOps := [] }
        [eventWith 1 1, eventWith 2 1, eventWith 3 1] 2 true).1 rfl rfl).2⟩,
    ⟨Or.inl (by decide),
      ((C8_postEvents_split { mPendingWriteEventsQueue := [[eventWith 9 1]], queueOps := [] }
        [eventWith 1 1] 2 true).2.1 (Or.inl (by decide))).2⟩⟩

/-- C8 as stated fails for an empty batch: submitted to a non-empty backlog, the empty
batch is not appended as a new tail batch, the backlog stays as it was. -/
theorem C8_empty_batch_counterexample :
    (postEventsToMessageQueue
        { mPendingWriteEventsQueue := [[eventWith 9 1]], queueOps := [] }
        [] 3 true).mPendingWriteEventsQueue = [[eventWith 9 1]] ∧
    (postEventsToMessageQueue
        { mPendingWriteEventsQueue := [[eventWith 9 1]], queueOps := [] }
        [] 3 true).mPendingWriteEventsQueue ≠ [[eventWith 9 1]] ++ [[]] := by
  decide

/-- C9: for every sequence of increment / decrement calls from count 0 in which no initial
segment has more decrements than increments, after any number `k` of the calls the count is
increments minus decrements (hence not negative) and the wake lock is held exactly when the
count is positive; and the next call acquires the lock exactly on a transition of the
count from 0 to 1, releases it exactly on a transition to 0, and otherwise makes no call
to the power library. -/
theorem C9_wakelock_refcount (ops : List WakelockOp)
    (hbal : ∀ k, (ops.take k).count WakelockOp.decrement ≤
      (ops.take k).count WakelockOp.increment) (k : Nat) :
    (Wakelock.after (ops.take k)).mWakelockRefCount =
        ((ops.take k).count WakelockOp.increment : Int) -
          ((ops.take k).count WakelockOp.decrement : Int) ∧
    0 ≤ (Wakelock.after (ops.take k)).mWakelockRefCount ∧
    ((Wakelock.after (ops.take k)).held = true ↔
      0 < (Wakelock.after (ops.take k)).mWakelockRefCount) ∧
    (∀ op, ops[k]? = some op →
      ((Wakelock.after (ops.take (k + 1))).powerCalls =
          (Wakelock.after (ops.take k)).powerCalls ++ [PowerCall.acquire_wake_lock] ∧
        op = WakelockOp.increment ∧
        (Wakelock.after (ops.take k)).mWakelockRefCount = 0 ∧
        (Wakelock.after (ops.take (k + 1))).mWakelockRefCount = 1) ∨
      ((Wakelock.after (ops.take (k + 1))).powerCalls =
          (Wakelock.after (ops.take k)).powerCalls ++ [PowerCall.release_wake_lock] ∧
        op = WakelockOp.decrement ∧
        (Wakelock.after (ops.take k)).mWakelockRefCount = 1 ∧
        (Wakelock.after (ops.take (k + 1))).mWakelockRefCount = 0) ∨
      ((Wakelock.after (ops.take (k + 1))).powerCalls =
          (Wakelock.after (ops.take k)).powerCalls ∧
        (Wakelock.after (ops.take k)).mWakelockRefCount ≠ 0 ∧
        (Wakelock.after (ops.take (k + 1))).mWakelockRefCount ≠ 0)) := by
  obtain ⟨hc, hh⟩ := wakelock_count_held ops hbal k
  have hb0 := hbal k
  have hnn : 0 ≤ (Wakelock.after (ops.take k)).mWakelockRefCount := by
    rw [hc]
    omega
  refine ⟨hc, hnn, hh, ?_⟩
  intro op hk
  obtain ⟨hc1, _⟩ := wakelock_count_held ops hbal (k + 1)
  have hb1 := hbal (k + 1)
  have hnn1 : 0 ≤ (Wakelock.after (ops.take (k + 1))).mWakelockRefCount := by
    rw [hc1]
    omega
  rw [wakelock_after_succ ops k op hk] at hnn1 ⊢
  cases op with
  | increment =>
    simp only [Wakelock.step, incrementRefCountAndMaybeAcquireWakelock] at hnn1 ⊢
    by_cases hz : (Wakelock.after (ops.take k)).mWakelockRefCount = 0
    · left
      simp [hz]
    · right
      right
      simp [hz]
      omega
  | decrement =>
    simp only [Wakelock.step, decrementRefCountAndMaybeReleaseWakelock] at hnn1 ⊢
    by_cases hz : (Wakelock.after (ops.take k)).mWakelockRefCount - 1 = 0
    · right
      left
      simp [hz]
      omega
    · right
      right
      simp [hz] at hnn1 ⊢
      omega

theorem C9_wakelock_refcount_witness :
    (∀ k, ([WakelockOp.increment, WakelockOp.increment, WakelockOp.decrement,
          WakelockOp.decrement].take k).count WakelockOp.decrement ≤
        ([WakelockOp.increment, WakelockOp.increment, WakelockOp.decrement,
          WakelockOp.decrement].take k).count WakelockOp.increment) ∧
      (Wakelock.after
          ([WakelockOp.increment, WakelockOp.increment, WakelockOp.decrement,
            WakelockOp.decrement].take 3)).mWakelockRefCount = 1 ∧
      (Wakelock.after
          ([WakelockOp.increment, WakelockOp.increment, WakelockOp.decrement,
            WakelockOp.decrement].take 3)).held = true := by
  have hbal : ∀ k, ([WakelockOp.increment, WakelockOp.increment, WakelockOp.decrement,
        WakelockOp.decrement].take k).count WakelockOp.decrement ≤
      ([WakelockOp.increment, WakelockOp.increment, WakelockOp.decrement,
        WakelockOp.decrement].take k).count WakelockOp.increment := by
    intro k
    rcases k with _ | _ | _ | _ | _ | k <;> simp [List.take]
  have h := C9_wakelock_refcount _ hbal 3
  refine ⟨hbal, ?_, ?_⟩
  · rw [h.1]
    decide
  · rw [h.2.2.1, h.1]
    decide

/-- C10: for a global handle whose top byte is the index of a registered sub-HAL,
`activate`, `batch` and `flush` make exactly one call, to the sub-HAL at that index, with the
handle's top byte cleared and the other arguments as given, and return that sub-HAL's result
code; `injectSensorData`, when the mode gate lets the event through, does the same with a
copy of the event in which only `sensorHandle` changed (top byte cleared). -/
theorem C10_router_forwards (p : HalProxy) (g : Nat) (subHal : ISensorsSubHal)
    (hreg : p.mSubHalList[g >>> 24]? = some subHal) :
    (∀ enabled : Bool,
      activate p g enabled =
        some (subHal.respond subHal.calls (SubHalCall.activate (g % 2 ^ 24) enabled),
          p.served (g >>> 24) subHal (SubHalCall.activate (g % 2 ^ 24) enabled))) ∧
    (∀ samplingPeriodNs maxReportLatencyNs : Int,
      batch p g samplingPeriodNs maxReportLatencyNs =
        some (subHal.respond subHal.calls
            (SubHalCall.batch (g % 2 ^ 24) samplingPeriodNs maxReportLatencyNs),
          p.served (g >>> 24) subHal
            (SubHalCall.batch (g % 2 ^ 24) samplingPeriodNs maxReportLatencyNs))) ∧
    flush p g =
      some (subHal.respond subHal.calls (SubHalCall.flush (g % 2 ^ 24)),
        p.served (g >>> 24) subHal (SubHalCall.flush (g % 2 ^ 24))) ∧
    (∀ event : Event, event.sensorHandle = g →
      (p.mCurrentOperationMode ≠ OperationMode.NORMAL ∨
        event.sensorType = SensorType.ADDITIONAL_INFO) →
      injectSensorData p event =
        some (subHal.respond subHal.calls
            (SubHalCall.injectSensorData { event with sensorHandle := g % 2 ^ 24 }),
          p.served (g >>> 24) subHal
            (SubHalCall.injectSensorData { event with sensorHandle := g % 2 ^ 24 }))) := by
  refine ⟨?_, ?_, ?_, ?_⟩
  · intro enabled
    rw [activate, clearSubHalIndex_eq_mod, callSubHalForSensorHandle_eq p g _ subHal hreg]
    rfl
  · intro samplingPeriodNs maxReportLatencyNs
    rw [batch, clearSubHalIndex_eq_mod, callSubHalForSensorHandle_eq p g _ subHal hreg]
    rfl
  · rw [flush, clearSubHalIndex_eq_mod, callSubHalForSensorHandle_eq p g _ subHal hreg]
    rfl
  · intro event hg hgate
    have hpass : injectSensorDataGate p event = Result.OK := by
      unfold injectSensorDataGate
      rcases hgate with h | h
      · simp [h]
      · simp [h]
    rw [injectSensorData, hpass, hg, clearSubHalIndex_eq_mod]
    simp only [beq_self_eq_true, if_true]
    rw [callSubHalForSensorHandle_eq p g _ subHal hreg]
    rfl

theorem C10_router_forwards_witness :
    activate (HalProxy.create [steadySubHal 1 [], refusingSubHal 2 []]) 0x01000005 true =
      some (Result.BAD_VALUE,
        (HalProxy.create [steadySubHal 1 [], refusingSubHal 2 []]).served 1
          (refusingSubHal 2 []) (SubHalCall.activate 5 true)) :=
  (C10_router_forwards (HalProxy.create [steadySubHal 1 [], refusingSubHal 2 []])
    0x01000005 (refusingSubHal 2 []) rfl).1 true

/-- C11: `registerDirectChannel`, `unregisterDirectChannel` and `configDirectReport`.  When
no sub-HAL is designated, each reports `INVALID_OPERATION` (with `-1` as channel handle or
report token for the callback forms) and the proxy state, with every sub-HAL's call log, is
unchanged.  When the sub-HAL at index `i` of a list of distinct sub-HALs is the designated
one, each makes exactly one call, to that sub-HAL (`configDirectReport` with the handle's
top byte cleared), and reports what it answers. -/
theorem C11_direct_channel_routing (p : HalProxy) :
    (p.mDirectChannelSubHal = none →
      (∀ mem : Nat, registerDirectChannel p mem = some ((Result.INVALID_OPERATION, -1), p)) ∧
      (∀ channelHandle : Int,
        unregisterDirectChannel p channelHandle = some (Result.INVALID_OPERATION, p)) ∧
      (∀ (g : Nat) (channelHandle : Int) (rate : Nat),
        configDirectReport p g channelHandle rate =
          some ((Result.INVALID_OPERATION, -1), p))) ∧
    (∀ (i : Nat) (subHal : ISensorsSubHal), p.mSubHalList[i]? = some subHal →
      (p.mSubHalList.map ISensorsSubHal.addr).Nodup →
      p.mDirectChannelSubHal = some subHal.addr →
      (∀ mem : Nat,
        registerDirectChannel p mem =
          some ((subHal.respond subHal.calls (SubHalCall.registerDirectChannel mem),
              subHal.respondValue subHal.calls (SubHalCall.registerDirectChannel mem)),
            p.served i subHal (SubHalCall.registerDirectChannel mem))) ∧
      (∀ channelHandle : Int,
        unregisterDirectChannel p channelHandle =
          some (subHal.respond subHal.calls (SubHalCall.unregisterDirectChannel channelHandle),
            p.served i subHal (SubHalCall.unregisterDirectChannel channelHandle))) ∧
      (∀ (g : Nat) (channelHandle : Int) (rate : Nat),
        configDirectReport p g channelHandle rate =
          some ((subHal.respond subHal.calls
                (SubHalCall.configDirectReport (g % 2 ^ 24) channelHandle rate),
              subHal.respondValue subHal.calls
                (SubHalCall.configDirectReport (g % 2 ^ 24) channelHandle rate)),
            p.served i subHal
              (SubHalCall.configDirectReport (g % 2 ^ 24) channelHandle rate)))) := by
  constructor
  · intro hnone
    refine ⟨?_, ?_, ?_⟩
    · intro mem
      simp [registerDirectChannel, hnone]
    · intro channelHandle
      simp [unregisterDirectChannel, hnone]
    · intro g channelHandle rate
      simp [configDirectReport, hnone]
  · intro i subHal hi hnd hd
    refine ⟨?_, ?_, ?_⟩
    · intro mem
      simp [registerDirectChannel, hd, callDirectChannelSubHal_eq _ subHal _ i hi hnd,
        HalProxy.served]
    · intro channelHandle
      simp [unregisterDirectChannel, hd, callDirectChannelSubHal_eq _ subHal _ i hi hnd,
        HalProxy.served]
    · intro g channelHandle rate
      simp [configDirectReport, hd, clearSubHalIndex_eq_mod,
        callDirectChannelSubHal_eq _ subHal _ i hi hnd, HalProxy.served]

theorem C11_direct_channel_routing_witness :
    ((initializeSensorList
          (HalProxy.create
            [steadySubHal 1 [sensorWith 5 0], refusingSubHal 2 [sensorWith 6 0x400]])
        ).mDirectChannelSubHal = some (refusingSubHal 2 [sensorWith 6 0x400]).addr) ∧
    unregisterDirectChannel
        (initializeSensorList
          (HalProxy.create
            [steadySubHal 1 [sensorWith 5 0], refusingSubHal 2 [sensorWith 6 0x400]])) 7 =
      some (Result.BAD_VALUE,
        (initializeSensorList
          (HalProxy.create
            [steadySubHal 1 [sensorWith 5 0], refusingSubHal 2 [sensorWith 6 0x400]])).served 1
          (refusingSubHal 2 [sensorWith 6 0x400]) (SubHalCall.unregisterDirectChannel 7)) ∧
    registerDirectChannel (HalProxy.create [steadySubHal 1 []]) 3 =
      some ((Result.INVALID_OPERATION, -1), HalProxy.create [steadySubHal 1 []]) :=
  ⟨by decide,
    ((C11_direct_channel_routing
      (initializeSensorList
        (HalProxy.create
          [steadySubHal 1 [sensorWith 5 0], refusingSubHal 2 [sensorWith 6 0x400]]))).2 1
      (refusingSubHal 2 [sensorWith 6 0x400]) rfl (by decide) (by decide)).2.1 7,
    ((C11_direct_channel_routing (HalProxy.create [steadySubHal 1 []])).1 rfl).1 3⟩

/-- C12: for every input batch and sub-HAL index `i`, `processEvents` returns a batch of the
same length whose events are the input events, in order, each with its sensor handle
replaced by `setSubHalIndex handle i` and nothing else changed, and the wake-up count it
reports is the number of events whose relabelled handle has the `WAKE_UP` bit set in the
flags the registry stores for it. -/
theorem C12_processEvents (p : HalProxy) (i : Nat) (events : List Event) :
    (processEvents p i events).1 =
        events.map (fun e => { e with sensorHandle := setSubHalIndex e.sensorHandle i }) ∧
    (processEvents p i events).1.length = events.length ∧
    (∀ k : Nat, (processEvents p i events).1[k]? =
      (events[k]?).map (fun e => { e with sensorHandle := setSubHalIndex e.sensorHandle i })) ∧
    (processEvents p i events).2 =
      (events.filter (fun e =>
        ((getSensorInfo p (setSubHalIndex e.sensorHandle i)).flags &&&
          SensorFlagBits.WAKE_UP) != 0)).length := by
  have h := foldl_processEvent p i events ([], 0)
  unfold processEvents
  rw [h]
  simp

/-- C13: for every list of local handles and sub-HAL index `i`,
`onDynamicSensorsDisconnected` forwards, in input order, exactly the encoded handles
`setSubHalIndex h i` of the inputs `h` that have a clear top byte and whose encoded handle
is a key of the dynamic-sensor registry when the input is processed; afterwards no forwarded
handle is a key of the registry, and the registry is the former one without the entries of
the forwarded handles, every other entry unchanged. -/
theorem C13_dynamic_sensors_disconnected (m : List (Nat × SensorInfo)) (handles : List Nat)
    (i : Nat) :
    (onDynamicSensorsDisconnected m handles i).2 =
        (List.range handles.length).filterMap (disconnectForwardedAt m handles i) ∧
    (∀ g ∈ (onDynamicSensorsDisconnected m handles i).2,
      mapContains (onDynamicSensorsDisconnected m handles i).1 g = false) ∧
    (onDynamicSensorsDisconnected m handles i).1 =
      m.filter (fun e => !(onDynamicSensorsDisconnected m handles i).2.contains e.1) := by
  refine ⟨onDynamicSensorsDisconnected_forwarded m handles i, ?_,
    onDynamicSensorsDisconnected_registry m handles i⟩
  intro g hg
  rw [onDynamicSensorsDisconnected_registry m handles i]
  simp only [mapContains, List.any_filter, List.any_eq_false]
  intro e _
  by_cases he : e.1 = g
  · simp [he, hg]
  · simp [he]

/-- C14: for every list of new sensors and sub-HAL index `i`, `onDynamicSensorsConnected`
forwards, in input order, exactly the sensors whose handle has a clear top byte, each with
its handle replaced by `setSubHalIndex handle i` and nothing else changed; afterwards the
dynamic-sensor registry maps a handle to the last forwarded sensor carrying it, and to what
it held before when no forwarded sensor carries it; a sensor with a non-zero top byte
changes neither the registry nor the forwarded list. -/
theorem C14_dynamic_sensors_connected (m : List (Nat × SensorInfo)) (added : List SensorInfo)
    (i : Nat) :
    (onDynamicSensorsConnected m added i).2 =
        (added.filter (fun s => subHalIndexIsClear s.sensorHandle)).map
          (fun s => { s with sensorHandle := setSubHalIndex s.sensorHandle i }) ∧
    (∀ g : Nat, mapFind (onDynamicSensorsConnected m added i).1 g =
      ((onDynamicSensorsConnected m added i).2.reverse.find?
        (fun s => s.sensorHandle == g)).or (mapFind m g)) ∧
    (∀ (st : List (Nat × SensorInfo) × List SensorInfo) (s : SensorInfo),
      subHalIndexIsClear s.sensorHandle = false → connectSensor i st s = st) := by
  refine ⟨onDynamicSensorsConnected_forwarded m added i,
    onDynamicSensorsConnected_registry m added i, ?_⟩
  intro st s hc
  simp [connectSensor, hc]

/-- C15: the failing input.  With one registered sub-HAL, the handle `0x05000001` selects
index 5 of a list of length 1: `getSubHalForSensorHandle` has no sub-HAL at that index
(`none` marks the subscript outside the list), and `activate` reaches this subscript with
no check before it, so no `BAD_VALUE` is produced on the way. -/
theorem C15_unchecked_subscript :
    subHalIndexOf 0x05000001 = 5 ∧
    (HalProxy.create [steadySubHal 1 []]).mSubHalList.length = 1 ∧
    getSubHalForSensorHandle (HalProxy.create [steadySubHal 1 []]) 0x05000001 = none ∧
    activate (HalProxy.create [steadySubHal 1 []]) 0x05000001 true =
      callSubHalForSensorHandle (HalProxy.create [steadySubHal 1 []]) 0x05000001
        (SubHalCall.activate (clearSubHalIndex 0x05000001) true) :=
  ⟨by decide, rfl, rfl, rfl⟩

/-- C17 (amended): after registry construction the designated direct-channel sub-HAL is the
lowest-index sub-HAL that reports at least one sensor with a clear top byte in its handle
and a direct-channel capability bit (`MASK_DIRECT_REPORT` or `MASK_DIRECT_CHANNEL`); if no
sub-HAL reports such a sensor, none is designated. -/
theorem C17_designated_sub_hal (subHals : List ISensorsSubHal) :
    (∀ (pre : List ISensorsSubHal) (subHal : ISensorsSubHal) (post : List ISensorsSubHal),
      subHals = pre ++ subHal :: post →
      (∀ b ∈ pre, reportsDirectChannel b = false) →
      reportsDirectChannel subHal = true →
      (initializeSensorList (HalProxy.create subHals)).mDirectChannelSubHal =
        some subHal.addr) ∧
    ((∀ b ∈ subHals, reportsDirectChannel b = false) →
      (initializeSensorList (HalProxy.create subHals)).mDirectChannelSubHal = none) := by
  constructor
  · intro pre subHal post hsplit hpre hsub
    have h := initializeSensorListFrom_direct_first pre subHal post hpre hsub 0
      (HalProxy.create subHals) rfl
    simpa [initializeSensorList, HalProxy.create, hsplit] using h
  · intro hno
    have h := initializeSensorListFrom_direct_none subHals hno 0 (HalProxy.create subHals) rfl
    simpa [initializeSensorList, HalProxy.create] using h

theorem C17_designated_sub_hal_witness :
    ((∀ b ∈ [steadySubHal 1 [sensorWith 5 0]], reportsDirectChannel b = false) ∧
      reportsDirectChannel (steadySubHal 2 [sensorWith 6 0x400]) = true) ∧
    (initializeSensorList
        (HalProxy.create
          [steadySubHal 1 [sensorWith 5 0], steadySubHal 2 [sensorWith 6 0x400],
            steadySubHal 3 [sensorWith 7 0x80]])).mDirectChannelSubHal =
      some (steadySubHal 2 [sensorWith 6 0x400]).addr := by
  have hpre : ∀ b ∈ [steadySubHal 1 [sensorWith 5 0]], reportsDirectChannel b = false := by
    intro b hb
    rw [List.mem_singleton] at hb
    subst hb
    decide
  exact ⟨⟨hpre, by decide⟩,
    (C17_designated_sub_hal
      [steadySubHal 1 [sensorWith 5 0], steadySubHal 2 [sensorWith 6 0x400],
        steadySubHal 3 [sensorWith 7 0x80]]).1 [steadySubHal 1 [sensorWith 5 0]]
      (steadySubHal 2 [sensorWith 6 0x400]) [steadySubHal 3 [sensorWith 7 0x80]] rfl hpre
      (by decide)⟩

/-- C17 as stated fails: sub-HAL 0 reports a sensor with a direct-channel bit whose handle
has a non-zero top byte, sub-HAL 1 reports one with a clear handle; the sensor of sub-HAL 0
is discarded before the arbitration and the designated sub-HAL is sub-HAL 1, not the
lowest-index one that reports a direct-channel sensor. -/
theorem C17_discarded_sensor_counterexample :
    ((steadySubHal 1 [sensorWith 0x01000005 0x400]).sensorsList.any (fun s =>
        (s.flags &&&
          (SensorFlagBits.MASK_DIRECT_REPORT ||| SensorFlagBits.MASK_DIRECT_CHANNEL)) != 0) =
      true) ∧
    (initializeSensorList
        (HalProxy.create
          [steadySubHal 1 [sensorWith 0x01000005 0x400],
            steadySubHal 2 [sensorWith 6 0x400]])).mDirectChannelSubHal = some 2 ∧
    (initializeSensorList
        (HalProxy.create
          [steadySubHal 1 [sensorWith 0x01000005 0x400],
            steadySubHal 2 [sensorWith 6 0x400]])).mDirectChannelSubHal ≠
      some (steadySubHal 1 [sensorWith 0x01000005 0x400]).addr := by
  decide

/-- C18: one drain iteration of `handlePendingWrites` on a backlog whose head batch has `s`
events, with channel capacity `c`, attempts one blocking write of exactly the first
`min s c` events of the head batch (and wakes the reader when it succeeds); afterwards,
whatever the result of the write, the head batch is the former head without its first `c`
events when `s > c` and is popped otherwise, the later batches are unchanged, and the
backlog holds exactly the events that were not attempted. -/
theorem C18_drain_iteration (w : Writer) (c : Nat) (ok : Bool)
    (pendingWriteEvents : List Event) (rest : List (List Event))
    (hq : w.mPendingWriteEventsQueue = pendingWriteEvents :: rest) :
    (handlePendingWritesIteration w c ok).queueOps =
        w.queueOps ++
          (if ok then
            [QueueOp.writeBlocking (pendingWriteEvents.take (min pendingWriteEvents.length c))
              true, QueueOp.wake]
          else
            [QueueOp.writeBlocking (pendingWriteEvents.take (min pendingWriteEvents.length c))
              false]) ∧
    (handlePendingWritesIteration w c ok).mPendingWriteEventsQueue =
        (if pendingWriteEvents.length > c then pendingWriteEvents.drop c :: rest else rest) ∧
    (handlePendingWritesIteration w c ok).mPendingWriteEventsQueue.flatten =
        pendingWriteEvents.drop (min pendingWriteEvents.length c) ++ rest.flatten := by
  rw [handlePendingWritesIteration_cons w c ok pendingWriteEvents rest hq]
  refine ⟨rfl, rfl, ?_⟩
  by_cases hgt : pendingWriteEvents.length > c
  · have hmin : min pendingWriteEvents.length c = c := by omega
    simp [hgt, hmin]
  · have hmin : min pendingWriteEvents.length c = pendingWriteEvents.length := by omega
    simp [hgt, hmin]

theorem C18_drain_iteration_witness :
    (({ mPendingWriteEventsQueue := [[eventWith 1 1, eventWith 2 1, eventWith 3 1],
            [eventWith 4 1]], queueOps := [] } : Writer).mPendingWriteEventsQueue =
        [eventWith 1 1, eventWith 2 1, eventWith 3 1] :: [[eventWith 4 1]]) ∧
    (handlePendingWritesIteration
        { mPendingWriteEventsQueue := [[eventWith 1 1, eventWith 2 1, eventWith 3 1],
            [eventWith 4 1]], queueOps := [] } 2 false).mPendingWriteEventsQueue =
      (if [eventWith 1 1, eventWith 2 1, eventWith 3 1].length > 2 then
        [eventWith 1 1, eventWith 2 1, eventWith 3 1].drop 2 :: [[eventWith 4 1]]
      else [[eventWith 4 1]]) :=
  ⟨rfl,
    (C18_drain_iteration
      { mPendingWriteEventsQueue := [[eventWith 1 1, eventWith 2 1, eventWith 3 1],
          [eventWith 4 1]], queueOps := [] } 2 false
      [eventWith 1 1, eventWith 2 1, eventWith 3 1] [[eventWith 4 1]] rfl).2.1⟩

/-- C19: starting from the empty backlog, after any sequence of calls of
`postEventsToMessageQueue` and drain iterations of `handlePendingWrites` (whole, or split
at the unlock), with any channel capacities and write results, every batch stored in the
backlog is non-empty. -/
theorem C19_backlog_batches_nonempty (steps : List WriterStep) :
    ∀ b ∈ (steps.foldl WriterSystem.step
      WriterSystem.start).writer.mPendingWriteEventsQueue, b ≠ [] := by
  apply writerRun_nonempty steps WriterSystem.start
  intro b hb
  simp [WriterSystem.start] at hb

theorem C19_backlog_batches_nonempty_witness :
    [eventWith 2 1, eventWith 3 1] ∈
        ([WriterStep.post [eventWith 1 1, eventWith 2 1, eventWith 3 1] 1 true,
            WriterStep.drainBegin 4, WriterStep.post [] 2 true].foldl WriterSystem.step
          WriterSystem.start).writer.mPendingWriteEventsQueue ∧
      [eventWith 2 1, eventWith 3 1] ≠ [] :=
  ⟨by decide,
    C19_backlog_batches_nonempty
      [WriterStep.post [eventWith 1 1, eventWith 2 1, eventWith 3 1] 1 true,
        WriterStep.drainBegin 4, WriterStep.post [] 2 true]
      [eventWith 2 1, eventWith 3 1] (by decide)⟩

/-- C20: progress of the drain.  On a backlog all of whose batches are non-empty: with a
channel capacity of at least 1, a drain iteration on a non-empty backlog strictly decreases
the number of events in the backlog; with no further enqueue, any run of drain iterations
with capacities of at least 1 that is at least as long as the number of events in the
backlog ends with the backlog empty; and with capacity 0 a drain iteration leaves a
non-empty backlog as it is. -/
theorem C20_drain_progress (w : Writer) (hne : ∀ b ∈ w.mPendingWriteEventsQueue, b ≠ []) :
    (∀ (c : Nat) (ok : Bool), 1 ≤ c → w.mPendingWriteEventsQueue ≠ [] →
      (handlePendingWritesIteration w c ok).mPendingWriteEventsQueue.flatten.length <
        w.mPendingWriteEventsQueue.flatten.length) ∧
    (∀ runs : List (Nat × Bool), (∀ r ∈ runs, 1 ≤ r.1) →
      w.mPendingWriteEventsQueue.flatten.length ≤ runs.length →
      (runs.foldl (fun v r => handlePendingWritesIteration v r.1 r.2)
        w).mPendingWriteEventsQueue = []) ∧
    (∀ ok : Bool, w.mPendingWriteEventsQueue ≠ [] →
      (handlePendingWritesIteration w 0 ok).mPendingWriteEventsQueue =
        w.mPendingWriteEventsQueue) := by
  refine ⟨?_, ?_, ?_⟩
  · intro c ok hc hq
    exact handlePendingWritesIteration_decreases w c ok hne hc hq
  · intro runs hc hlen
    exact drainRun_empties runs hc w hne hlen
  · intro ok hq
    cases hw : w.mPendingWriteEventsQueue with
    | nil => exact absurd hw hq
    | cons hd rest =>
      have hhd : hd ≠ [] := hne hd (by rw [hw]; exact List.mem_cons_self _ _)
      have hpos : 0 < hd.length := List.length_pos.mpr hhd
      rw [handlePendingWritesIteration_cons w 0 ok hd rest hw]
      simp [hpos]

theorem C20_drain_progress_witness :
    (∀ b ∈ ({ mPendingWriteEventsQueue := [[eventWith 1 1, eventWith 2 1, eventWith 3 1],
          [eventWith 4 1]], queueOps := [] } : Writer).mPendingWriteEventsQueue, b ≠ []) ∧
    ([(2, true), (2, false), (1, true), (5, true)].foldl
        (fun v r => handlePendingWritesIteration v r.1 r.2)
        { mPendingWriteEventsQueue := [[eventWith 1 1, eventWith 2 1, eventWith 3 1],
            [eventWith 4 1]], queueOps := [] }).mPendingWriteEventsQueue = [] := by
  have hne : ∀ b ∈ ({ mPendingWriteEventsQueue := [[eventWith 1 1, eventWith 2 1,
      eventWith 3 1], [eventWith 4 1]], queueOps := [] } : Writer).mPendingWriteEventsQueue,
      b ≠ [] := by
    decide
  exact ⟨hne,
    (C20_drain_progress _ hne).2.1 [(2, true), (2, false), (1, true), (5, true)]
      (by decide) (by decide)⟩

end Multihal
